import Mathlib

/-!
Verification of the clustering and rendering utilities in
`atomsci/ddm/utils/rdkit_easy.py`.

Fingerprint bit vectors are modelled as finite sets of set-bit positions;
Tanimoto similarity only depends on intersection and union cardinalities.
The Butina clustering routine invoked by `cluster_fingerprints` lives in the
external RDKit library (`rdkit.ML.Cluster.Butina.ClusterData`, called with
`isDistData=True` and the default `reordering=False`); it is embedded here
from that library's published implementation, since the repository only
calls it.
-/

set_option linter.unusedVariables false

attribute [local semireducible] Rat.add Rat.sub Rat.mul Rat.inv

/-- A fingerprint bit vector (`rdkit.ExplicitBitVect`), modelled as its set
of set bits. -/
abbrev Fingerprint := Finset ℕ

/-- Tanimoto similarity of two bit vectors: common bits over total set bits,
with the RDKit convention that two all-zero vectors have similarity 0. -/
def tanimoto (a b : Fingerprint) : ℚ :=
  if (a ∪ b).card = 0 then 0 else ((a ∩ b).card : ℚ) / ((a ∪ b).card : ℚ)

/-- `DataStructs.BulkTanimotoSimilarity(fp, l)`: Tanimoto similarity of `fp`
against every entry of `l`. -/
def bulkTanimotoSimilarity (fp : Fingerprint) (l : List Fingerprint) : List ℚ :=
  l.map (fun x => tanimoto fp x)

/-- The flattened lower-triangular distance matrix built by
`cluster_fingerprints`: for each `i` in `range(1, nfps)` it extends the list
with `[1 - x for x in BulkTanimotoSimilarity(fps[i], fps[:i])]` (the `i = 0`
iteration of `List.range` contributes nothing, matching `range(1, nfps)`). -/
def clusterDists (fps : List Fingerprint) : List ℚ :=
  (List.range fps.length).flatMap (fun i =>
    (bulkTanimotoSimilarity (fps.getD i ∅) (fps.take i)).map (fun x => 1 - x))

/-- The iteration order `for i in range(1, nPts): for j in range(i)` used by
`Butina.ClusterData` to consume a flattened lower-triangular distance
matrix. -/
def triPairs (n : ℕ) : List (ℕ × ℕ) :=
  (List.range n).flatMap (fun i => (List.range i).map (fun j => (i, j)))

/-- `nbrLists[i].append(j)`. -/
def addNbr (ls : List (List ℕ)) (i j : ℕ) : List (List ℕ) :=
  ls.set i (ls.getD i [] ++ [j])

/-- One step of the neighbor-list construction of `Butina.ClusterData`: for
the pair `(i, j)` at distance `dij`, when `dij <= distThresh` append `j` to
`nbrLists[i]` and `i` to `nbrLists[j]`. -/
def nbrStep (distThresh : ℚ) (ls : List (List ℕ)) (pd : (ℕ × ℕ) × ℚ) : List (List ℕ) :=
  if pd.2 ≤ distThresh then addNbr (addNbr ls pd.1.1 pd.1.2) pd.1.2 pd.1.1 else ls

/-- The neighbor-list construction phase of `Butina.ClusterData`
(`isDistData=True`): walking the flattened distance matrix in
lower-triangular order, every pair at distance at most `distThresh` is
recorded in both endpoints' neighbor lists. -/
def buildNbrLists (nPts : ℕ) (dists : List ℚ) (distThresh : ℚ) : List (List ℕ) :=
  ((triPairs nPts).zip dists).foldl (nbrStep distThresh) (List.replicate nPts [])

/-- The inner loop of `Butina.ClusterData` that grows a new cluster: each
neighbor of the centroid that is not yet assigned is appended to the cluster
and marked as assigned. Returns the absorbed neighbors (in neighbor-list
order) together with the updated assigned set. -/
def absorbNbrs (seen : Finset ℕ) : List ℕ → List ℕ × Finset ℕ
  | [] => ([], seen)
  | nb :: ns =>
    if nb ∈ seen then absorbNbrs seen ns
    else
      let r := absorbNbrs (insert nb seen) ns
      (nb :: r.1, r.2)

/-- The main loop of `Butina.ClusterData`: candidate centroids are popped in
order; an already assigned candidate is skipped, otherwise it founds a new
cluster consisting of itself followed by its not-yet-assigned neighbors, and
the cluster members become assigned. -/
def butinaLoop (nbrL : List (List ℕ)) : List (ℕ × ℕ) → Finset ℕ → List (List ℕ) → List (List ℕ)
  | [], _, res => res
  | t :: rest, seen, res =>
    if t.2 ∈ seen then butinaLoop nbrL rest seen res
    else
      let p := absorbNbrs (insert t.2 seen) (nbrL.getD t.2 [])
      butinaLoop nbrL rest p.2 (res ++ [t.2 :: p.1])

/-- The order produced by `tLists.sort(reverse=True)` on the distinct pairs
`(len(nbrLists[x]), x)`: descending lexicographic on (neighbor count,
index). -/
def tListLE (a b : ℕ × ℕ) : Prop := b.1 < a.1 ∨ (b.1 = a.1 ∧ b.2 ≤ a.2)

instance : DecidableRel tListLE := fun a b => by
  unfold tListLE
  infer_instance

/-- The neighbor lists computed by `Butina.ClusterData` for the given
flattened distance data. -/
def clusterNbrLists (dists : List ℚ) (nPts : ℕ) (distThresh : ℚ) : List (List ℕ) :=
  buildNbrLists nPts dists distThresh

/-- The sorted candidate list `tLists` of `Butina.ClusterData`: all points
paired with their neighbor counts, sorted by decreasing count (ties broken
by decreasing index), as `sort(reverse=True)` produces on distinct pairs. -/
def clusterTList (dists : List ℚ) (nPts : ℕ) (distThresh : ℚ) : List (ℕ × ℕ) :=
  List.insertionSort tListLE
    ((List.range nPts).map
      (fun x => (((clusterNbrLists dists nPts distThresh).getD x []).length, x)))

/-- `Butina.ClusterData(data, nPts, distThresh, isDistData=True)` from the
external RDKit library: build neighbor lists from the flattened distance
matrix, sort candidates by decreasing neighbor count, then greedily emit
clusters (centroid first). -/
def clusterData (dists : List ℚ) (nPts : ℕ) (distThresh : ℚ) : List (List ℕ) :=
  butinaLoop (clusterNbrLists dists nPts distThresh) (clusterTList dists nPts distThresh) ∅ []

/-- `cluster_fingerprints(fps, cutoff)`: generate the flattened Tanimoto
distance matrix, then cluster it with the Butina algorithm. -/
def cluster_fingerprints (fps : List Fingerprint) (cutoff : ℚ) : List (List ℕ) :=
  clusterData (clusterDists fps) fps.length cutoff

/-- Tanimoto distance `1 - similarity`, the quantity `cluster_fingerprints`
stores in the flattened distance matrix. -/
def tanimotoDist (a b : Fingerprint) : ℚ := 1 - tanimoto a b

/-- The neighbor relation induced by the distance matrix of
`cluster_fingerprints`: point `m` is within the cutoff distance of `k`. -/
def butinaClose (fps : List Fingerprint) (cutoff : ℚ) (k m : ℕ) : Bool :=
  decide (tanimotoDist (fps.getD k ∅) (fps.getD m ∅) ≤ cutoff)

/-- The set of neighbors of point `k` recorded by the neighbor-list phase:
all other points within the cutoff distance. -/
def nbrFinset (fps : List Fingerprint) (cutoff : ℚ) (k : ℕ) : Finset ℕ :=
  (Finset.range fps.length).filter
    (fun m => m ≠ k ∧ butinaClose fps cutoff k m = true)

/-- The fixed processing order of the Butina main loop on this input: the
points sorted by decreasing neighbor count (ties by decreasing index). -/
def butinaOrder (fps : List Fingerprint) (cutoff : ℚ) : List ℕ :=
  (clusterTList (clusterDists fps) fps.length cutoff).map Prod.snd

/-- Reference greedy sphere-exclusion clustering, following the spec text:
points are processed in a fixed order; a point that is already assigned is
skipped; otherwise it becomes a new cluster centroid and absorbs every
not-yet-assigned point within the cutoff distance (`close`); this repeats
until the order is exhausted. Clusters are produced as sets of indices. -/
def sphereExclusion (close : ℕ → ℕ → Bool) (n : ℕ) : List ℕ → Finset ℕ → List (Finset ℕ)
  | [], _ => []
  | p :: rest, assigned =>
    if p ∈ assigned then sphereExclusion close n rest assigned
    else
      let c := insert p ((Finset.range n).filter (fun q => q ∉ assigned ∧ close p q = true))
      c :: sphereExclusion close n rest (assigned ∪ c)

/-- The contribution of a single lower-triangular pair to the final neighbor
set of point `k` (proof helper for the neighbor-list characterization). -/
def pairContrib (g : ℕ × ℕ → ℚ) (c : ℚ) (k : ℕ) (p : ℕ × ℕ) : Finset ℕ :=
  if g p ≤ c then (if p.1 = k then {p.2} else if p.2 = k then {p.1} else ∅) else ∅

/-- The neighbor set of `k` accumulated over a list of lower-triangular
pairs (proof helper). -/
def pairsNbrSet (g : ℕ × ℕ → ℚ) (c : ℚ) (P : List (ℕ × ℕ)) (k : ℕ) : Finset ℕ :=
  P.foldr (fun p acc => pairContrib g c k p ∪ acc) ∅

/-- A single `df.at[lab, cluster_column] = v` update on the cluster column:
the value `v` is written at every position whose row LABEL equals `lab`
(with a unique pandas index this is exactly one position). The column is
represented positionally, aligned with the label list `labels`. -/
def setByLabel (labels : List ℕ) (col : List ℤ) (lab : ℕ) (v : ℤ) : List ℤ :=
  (labels.zip col).map (fun pc => if pc.1 = lab then v else pc.2)

/-- The inner loop of `cluster_dataframe`: for each member `j` of cluster
`c`, write the cluster index `v` to the row whose label is
`df2.at[j, df_index] = labels[j]`. -/
def writeCluster (labels : List ℕ) (col : List ℤ) (v : ℤ) (c : List ℕ) : List ℤ :=
  c.foldl (fun col2 j => setByLabel labels col2 (labels.getD j 0) v) col

/-- `cluster_dataframe(df, ...)`, returning the final contents of the
cluster column positionally aligned with the row labels. The dataframe is
represented by its row-label list `labels` (the pandas index) and its
molecule column `mols`; `fp` stands for the external
`AllChem.GetMorganFingerprintAsBitVect(mol, 2, 1024)`. Following the
source: the column starts at the sentinel `-1`, molecules are
fingerprinted in positional order, clustered, and each cluster index `i`
is written through the label mapping recorded in the `df_index` column. -/
def cluster_dataframe {Mol : Type} (fp : Mol → Fingerprint) (labels : List ℕ)
    (mols : List Mol) (cutoff : ℚ) : List ℤ :=
  let fingerprints := mols.map fp
  let clusters := cluster_fingerprints fingerprints cutoff
  clusters.enum.foldl (fun col ic => writeCluster labels col (ic.1 : ℤ) ic.2)
    (List.replicate labels.length (-1 : ℤ))

/-- A dataframe cell as touched by `calculate_descriptors`: missing, a
numeric descriptor value, or an RDKit molecule object. -/
inductive DVal (Mol : Type) where
  | na : DVal Mol
  | num : ℚ → DVal Mol
  | mol : Mol → DVal Mol
deriving DecidableEq

/-- Whether a cell holds a valid molecule object. -/
def DVal.isMol {Mol : Type} : DVal Mol → Bool
  | .mol _ => true
  | _ => false

/-- A pandas dataframe for the descriptor claims: a row count (rows are
addressed by the default integer index `0..nrows-1`) and an ordered list of
named columns. -/
structure DF (Mol : Type) where
  nrows : ℕ
  cols : List (String × List (DVal Mol))
deriving DecidableEq

/-- The ordered column names of a dataframe. -/
def colNames {Mol : Type} (df : DF Mol) : List String := df.cols.map Prod.fst

/-- Look up a column by name. -/
def getCol {Mol : Type} (df : DF Mol) (name : String) : Option (List (DVal Mol)) :=
  (df.cols.find? (fun c => c.1 = name)).map Prod.snd

/-- Read the cell at row `i` of the named column (`df.at[i, name]`). -/
def getCell {Mol : Type} (df : DF Mol) (name : String) (i : ℕ) : DVal Mol :=
  ((getCol df name).getD []).getD i .na

/-- `df.at[i, name] = v`: update the cell in place when the column exists,
otherwise enlarge the frame with a new column of that name (appended after
the existing columns, missing everywhere except row `i`), as pandas setting
with enlargement does. -/
def atSet {Mol : Type} (df : DF Mol) (i : ℕ) (name : String) (v : DVal Mol) : DF Mol :=
  if df.cols.any (fun c => c.1 = name) then
    ⟨df.nrows, df.cols.map (fun c => if c.1 = name then (c.1, c.2.set i v) else c)⟩
  else
    ⟨df.nrows, df.cols ++ [(name, (List.replicate df.nrows DVal.na).set i v)]⟩

/-- The descriptor values the external `MolecularDescriptorCalculator`
computes for one row: `calcD` applied to the molecule cell. The calculator
raises on anything that is not a valid molecule; the theorems only ever
evaluate it on molecule cells. -/
def cellDescriptors {Mol : Type} (calcD : Mol → List ℚ) : DVal Mol → List ℚ
  | .mol m => calcD m
  | _ => []

/-- `calculate_descriptors(df, molecule_column)`: for every row `i`, read
the molecule, compute the descriptor tuple, and write one cell per
descriptor name via `df.at[i, desc] = d` (`zip(descriptors, cd)`).
`descList` stands for the external library's fixed descriptor name list
`[x[0] for x in Descriptors._descList]` and `calcD` for the calculator it
parametrizes. -/
def descCells {Mol : Type} (i : ℕ) (d : DF Mol) (L : List (String × ℚ)) : DF Mol :=
  L.foldl (fun d2 dd => atSet d2 i dd.1 (DVal.num dd.2)) d

/-- One row of `calculate_descriptors`:
`cd = calculator.CalcDescriptors(df.at[i, molecule_column])` followed by
`df.at[i, desc] = d` for each `(desc, d)` in `zip(descriptors, cd)`. -/
def descRow {Mol : Type} (descList : List String) (calcD : Mol → List ℚ)
    (molecule_column : String) (d : DF Mol) (i : ℕ) : DF Mol :=
  descCells i d (descList.zip (cellDescriptors calcD (getCell d molecule_column i)))

def calculate_descriptors {Mol : Type} (descList : List String) (calcD : Mol → List ℚ)
    (df : DF Mol) (molecule_column : String) : DF Mol :=
  (List.range df.nrows).foldl (descRow descList calcD molecule_column) df

/-- The Python call result of `calculate_descriptors`: the mutated frame
paired with the function's return value, which is `None` (the function body
has no return statement). -/
def calculate_descriptors_call {Mol : Type} (descList : List String) (calcD : Mol → List ℚ)
    (df : DF Mol) (molecule_column : String) : DF Mol × Option (DF Mol) :=
  (calculate_descriptors descList calcD df molecule_column, none)

/-- The Python call result of `add_mol_column`: the frame mutated by the
external `PandasTools.AddMoleculeColumnToFrame` (here a parameter), paired
with the function's return value, which is that same frame. -/
def add_mol_column {Mol : Type} (addMoleculeColumnToFrame : DF Mol → String → String → DF Mol)
    (df : DF Mol) (smiles_col molecule_col : String) : DF Mol × Option (DF Mol) :=
  let df2 := addMoleculeColumnToFrame df smiles_col molecule_col
  (df2, some df2)

/-- ASCII lowercasing of a character, as `str.lower()` acts on the letters
involved in the image-type comparison. -/
def lowerChar (c : Char) : Char :=
  if 65 ≤ c.toNat ∧ c.toNat ≤ 90 then Char.ofNat (c.toNat + 32) else c

/-- `s.lower()` for the ASCII strings compared by `mol_to_html` (implemented
by structural recursion over the character list so that concrete instances
evaluate). -/
def pyLower (s : String) : String := ⟨s.data.map lowerChar⟩

/-- Replace every non-overlapping occurrence of `old` (non-empty here) from
left to right, with the remaining input length as structural fuel. -/
def replaceAux (old new2 : List Char) : ℕ → List Char → List Char
  | _, [] => []
  | 0, s => s
  | Nat.succ fuel, c :: rest =>
    if old.isPrefixOf (c :: rest) then
      new2 ++ replaceAux old new2 fuel (List.drop (old.length - 1) rest)
    else c :: replaceAux old new2 fuel rest

/-- `s.replace(old, new)` as used by `mol_to_svg` on its SVG text. -/
def pyReplace (s old new2 : String) : String :=
  ⟨replaceAux old.data new2.data s.data.length s.data⟩

/-- The Python exception classes distinguished by `mol_to_svg`'s handlers. -/
inductive PyExc where
  | runtimeError : PyExc
  | valueError : PyExc
  | other : PyExc
deriving DecidableEq

/-- The external RDKit drawing toolkit, as used by `mol_to_svg`: each
operation may raise. `updatePropertyCache` is `mol.UpdatePropertyCache(False)`
(an in-place refresh, modelled by state passing). -/
structure SvgKit (Mol : Type) where
  getExplicitValence0 : Mol → Except PyExc ℕ
  updatePropertyCache : Mol → Mol
  prepareMolForDrawing : Mol → Bool → Except PyExc Mol
  drawMoleculeSVG : Mol → ℕ → ℕ → Except PyExc String

/-- The tail of `mol_to_svg` after a molecule has been prepared: draw it and
post-process the SVG text (strip the `svg:` prefix and rename the
`xmlns:svg` attribute). -/
def drawFinish {Mol : Type} (kit : SvgKit Mol) (mc : Mol) (w h : ℕ) : Except PyExc String :=
  match kit.drawMoleculeSVG mc w h with
  | .ok svg => .ok (pyReplace (pyReplace svg "svg:" "") "xmlns:svg" "xmlns")
  | .error e => .error e

/-- The preparation step of `mol_to_svg`: try
`PrepareMolForDrawing(mol, kekulize=True)`; on a `ValueError` (kekulization
failure) fall back to `kekulize=False`; any other exception propagates. -/
def svgRender {Mol : Type} (kit : SvgKit Mol) (m : Mol) (w h : ℕ) : Except PyExc String :=
  match kit.prepareMolForDrawing m true with
  | .ok mc => drawFinish kit mc w h
  | .error PyExc.valueError =>
    match kit.prepareMolForDrawing m false with
    | .ok mc => drawFinish kit mc w h
    | .error e => .error e
  | .error e => .error e

/-- `mol_to_svg(mol, size)`: probe the first atom's explicit valence; a
`RuntimeError` (stale property cache) triggers
`mol.UpdatePropertyCache(False)` before rendering; any other exception
propagates; then prepare and draw. -/
def mol_to_svg {Mol : Type} (kit : SvgKit Mol) (mol : Mol) (w h : ℕ) : Except PyExc String :=
  match kit.getExplicitValence0 mol with
  | .ok _ => svgRender kit mol w h
  | .error PyExc.runtimeError => svgRender kit (kit.updatePropertyCache mol) w h
  | .error e => .error e

/-- The external pieces `mol_to_html` additionally uses: rasterization to an
in-memory byte buffer, base64, UTF-8 encoding, and file writes. -/
structure HtmlKit (Mol : Type) extends SvgKit Mol where
  imgToBytes : Mol → ℕ × ℕ → Except PyExc (List ℕ)
  b64encode : List ℕ → String
  utf8Bytes : String → List ℕ
  savePngFile : Mol → String → ℕ × ℕ → Except PyExc Unit
  writeTextFile : String → String → Except PyExc Unit

/-- The observable outcome of a `mol_to_html` call: the returned value (an
HTML tag, or `None`), the log messages emitted, and the filesystem effects
(directories created, files written). -/
structure HtmlOut where
  ret : Option String
  logs : List String
  dirsCreated : List String
  filesWritten : List String
deriving DecidableEq

/-- The warning logged for an unrecognized image type. -/
def unrecognizedTypeWarning : String := "Image type not recognized. Choose between png and svg."

/-- The info message logged on the embedding path. -/
def embedInfoMessage : String := "Warning: embed=True will result in large data structures if you have a lot of molecules."

/-- A single-quote character (used inside the generated HTML attributes). -/
def squote : String := String.singleton (Char.ofNat 39)

/-- The f-string of `mol_to_html`:
`<img src={src} style=width:{width}px;>` with single-quoted attributes. -/
def imgTag (src : String) (width : ℕ) : String :=
  "<img src=" ++ squote ++ src ++ squote ++ " style=" ++ squote ++ "width:" ++ toString width ++ "px;" ++ squote ++ ">"

/-- `mol_to_html(mol, name, type, directory, embed, width, height)`: reject
unrecognized image types with a warning and no result; otherwise either
embed the rendered image as a base64 data URI (no filesystem access), or
create the directory and save the image to `directory/name`, returning an
image tag referencing it. All comparisons use `type.lower()`. -/
def mol_to_html {Mol : Type} (kit : HtmlKit Mol) (mol : Mol)
    (name type directory : String) (embed : Bool) (width height : ℕ) :
    Except PyExc HtmlOut :=
  if ¬(pyLower type = "png" ∨ pyLower type = "svg") then
    .ok ⟨none, [unrecognizedTypeWarning], [], []⟩
  else if embed then
    if pyLower type = "png" then
      match kit.imgToBytes mol (width, height) with
      | .ok bytes =>
        .ok ⟨some (imgTag ("data:image/png;base64," ++ kit.b64encode bytes) width),
          [embedInfoMessage], [], []⟩
      | .error e => .error e
    else
      match mol_to_svg kit.toSvgKit mol width height with
      | .ok svg =>
        .ok ⟨some (imgTag ("data:image/svg+xml;base64," ++ kit.b64encode (kit.utf8Bytes svg)) width),
          [embedInfoMessage], [], []⟩
      | .error e => .error e
  else
    let img_file := directory ++ "/" ++ name
    if pyLower type = "png" then
      match kit.savePngFile mol img_file (width, height) with
      | .ok _ => .ok ⟨some (imgTag img_file width), [], [directory], [img_file]⟩
      | .error e => .error e
    else
      match mol_to_svg kit.toSvgKit mol width height with
      | .ok svg =>
        match kit.writeTextFile img_file svg with
        | .ok _ => .ok ⟨some (imgTag img_file width), [], [directory], [img_file]⟩
        | .error e => .error e
      | .error e => .error e

/-- A concrete toolkit instance used to evaluate the rendering model on
closed inputs. -/
def htmlProbeKit : HtmlKit Unit where
  getExplicitValence0 := fun _ => Except.ok 0
  updatePropertyCache := fun m => m
  prepareMolForDrawing := fun m _ => Except.ok m
  drawMoleculeSVG := fun _ _ _ => Except.ok "a"
  imgToBytes := fun _ _ => Except.ok [0]
  b64encode := fun _ => "QQ"
  utf8Bytes := fun _ => [1]
  savePngFile := fun _ _ _ => Except.ok ()
  writeTextFile := fun _ _ => Except.ok ()

/-- A concrete toolkit instance whose operations fail in controlled ways,
used to evaluate the exception-policy model on closed inputs. -/
def svgProbeKit : SvgKit ℕ where
  getExplicitValence0 := fun n =>
    if n = 0 then Except.error PyExc.runtimeError
    else if n = 1 then Except.error PyExc.other
    else Except.ok 7
  updatePropertyCache := fun n => n + 100
  prepareMolForDrawing := fun n kek =>
    if n = 2 then (if kek then Except.error PyExc.valueError else Except.ok 22)
    else if n = 3 then (if kek then Except.error PyExc.valueError else Except.error PyExc.other)
    else if n = 4 then Except.error PyExc.other
    else if n = 6 then Except.ok 66
    else Except.ok n
  drawMoleculeSVG := fun n _ _ =>
    if n = 66 then Except.error PyExc.other else Except.ok "x"

/-! ### List helpers -/

theorem getD_set_self {α : Type} (ls : List α) {i : ℕ} (h : i < ls.length) (v d : α) :
    (ls.set i v).getD i d = v := by
  rw [List.getD_eq_getElem?_getD, List.getElem?_set_self h]
  rfl

theorem getD_set_ne {α : Type} (ls : List α) {i j : ℕ} (h : i ≠ j) (v d : α) :
    (ls.set i v).getD j d = ls.getD j d := by
  rw [List.getD_eq_getElem?_getD, List.getElem?_set_ne h, ← List.getD_eq_getElem?_getD]

theorem range_list_toFinset (n : ℕ) : (List.range n).toFinset = Finset.range n := by
  ext x
  simp

theorem toFinset_append_singleton (l : List ℕ) (x : ℕ) :
    (l ++ [x]).toFinset = insert x l.toFinset := by
  ext y
  simp [List.toFinset_append, or_comm]

/-! ### Properties of the cluster-growing step -/

theorem absorbNbrs_seen (ns : List ℕ) : ∀ seen : Finset ℕ,
    (absorbNbrs seen ns).2 = seen ∪ (absorbNbrs seen ns).1.toFinset := by
  induction ns with
  | nil => intro seen; simp [absorbNbrs]
  | cons nb ns ih =>
    intro seen
    by_cases h : nb ∈ seen
    · simpa [absorbNbrs, h] using ih seen
    · simp only [absorbNbrs, if_neg h]
      rw [ih (insert nb seen)]
      ext x
      simp only [Finset.mem_union, Finset.mem_insert, List.toFinset_cons, List.mem_toFinset]
      tauto

theorem absorbNbrs_mem (ns : List ℕ) : ∀ (seen : Finset ℕ) (x : ℕ),
    x ∈ (absorbNbrs seen ns).1 → x ∈ ns ∧ x ∉ seen := by
  induction ns with
  | nil => intro seen x hx; simp [absorbNbrs] at hx
  | cons nb ns ih =>
    intro seen x hx
    by_cases h : nb ∈ seen
    · simp only [absorbNbrs, if_pos h] at hx
      rcases ih seen x hx with ⟨h1, h2⟩
      exact ⟨List.mem_cons_of_mem _ h1, h2⟩
    · simp only [absorbNbrs, if_neg h, List.mem_cons] at hx
      rcases hx with rfl | hx
      · exact ⟨List.mem_cons_self _ _, h⟩
      · rcases ih (insert nb seen) x hx with ⟨h1, h2⟩
        exact ⟨List.mem_cons_of_mem _ h1, fun hs => h2 (by simp [hs])⟩

theorem absorbNbrs_nodup (ns : List ℕ) : ∀ seen : Finset ℕ, (absorbNbrs seen ns).1.Nodup := by
  induction ns with
  | nil => intro seen; simp [absorbNbrs]
  | cons nb ns ih =>
    intro seen
    by_cases h : nb ∈ seen
    · simpa [absorbNbrs, h] using ih seen
    · simp only [absorbNbrs, if_neg h, List.nodup_cons]
      refine ⟨fun hmem => ?_, ih (insert nb seen)⟩
      have := (absorbNbrs_mem ns (insert nb seen) nb hmem).2
      exact this (Finset.mem_insert_self _ _)

theorem absorbNbrs_toFinset (ns : List ℕ) : ∀ seen : Finset ℕ,
    (absorbNbrs seen ns).1.toFinset = ns.toFinset \ seen := by
  induction ns with
  | nil => intro seen; simp [absorbNbrs]
  | cons nb ns ih =>
    intro seen
    by_cases h : nb ∈ seen
    · rw [show (absorbNbrs seen (nb :: ns)).1 = (absorbNbrs seen ns).1 by
        simp [absorbNbrs, h]]
      rw [ih seen]
      ext x
      simp only [Finset.mem_sdiff, List.toFinset_cons, Finset.mem_insert, List.mem_toFinset]
      constructor
      · rintro ⟨h1, h2⟩; exact ⟨Or.inr h1, h2⟩
      · rintro ⟨h1 | h1, h2⟩
        · exact absurd (h1 ▸ h) h2
        · exact ⟨h1, h2⟩
    · simp only [absorbNbrs, if_neg h, List.toFinset_cons]
      rw [ih (insert nb seen)]
      ext x
      simp only [Finset.mem_insert, Finset.mem_sdiff, List.mem_toFinset, List.toFinset_cons]
      constructor
      · rintro (rfl | ⟨h1, h2⟩)
        · exact ⟨Or.inl rfl, h⟩
        · exact ⟨Or.inr h1, fun hs => h2 (by simp [hs])⟩
      · rintro ⟨rfl | h1, h2⟩
        · exact Or.inl rfl
        · by_cases hx : x = nb
          · exact Or.inl hx
          · exact Or.inr ⟨h1, by simp [Finset.mem_insert, hx, h2]⟩

/-! ### The neighbor-list phase -/

theorem mem_triPairs {n : ℕ} {p : ℕ × ℕ} : p ∈ triPairs n ↔ p.2 < p.1 ∧ p.1 < n := by
  obtain ⟨a, b⟩ := p
  simp only [triPairs, List.mem_flatMap, List.mem_map, List.mem_range, Prod.mk.injEq]
  constructor
  · rintro ⟨i, hi, j, hj, rfl, rfl⟩
    exact ⟨hj, hi⟩
  · rintro ⟨h1, h2⟩
    exact ⟨a, h2, b, h1, rfl, rfl⟩

theorem addNbr_getD_self (ls : List (List ℕ)) {i : ℕ} (h : i < ls.length) (j : ℕ) :
    (addNbr ls i j).getD i [] = ls.getD i [] ++ [j] :=
  getD_set_self ls h _ _

theorem addNbr_getD_ne (ls : List (List ℕ)) {i k : ℕ} (h : i ≠ k) (j : ℕ) :
    (addNbr ls i j).getD k [] = ls.getD k [] :=
  getD_set_ne ls h _ _

theorem addNbr_length (ls : List (List ℕ)) (i j : ℕ) : (addNbr ls i j).length = ls.length :=
  List.length_set ..

theorem nbrStep_length (c : ℚ) (ls : List (List ℕ)) (pd : (ℕ × ℕ) × ℚ) :
    (nbrStep c ls pd).length = ls.length := by
  unfold nbrStep
  split <;> simp [addNbr_length]

theorem foldl_nbrStep_length (c : ℚ) (L : List ((ℕ × ℕ) × ℚ)) :
    ∀ ls : List (List ℕ), (L.foldl (nbrStep c) ls).length = ls.length := by
  induction L with
  | nil => intro ls; rfl
  | cons pd L ih =>
    intro ls
    rw [List.foldl_cons, ih, nbrStep_length]

theorem pairsNbrSet_cons (g : ℕ × ℕ → ℚ) (c : ℚ) (k : ℕ) (p : ℕ × ℕ) (P : List (ℕ × ℕ)) :
    pairsNbrSet g c (p :: P) k = pairContrib g c k p ∪ pairsNbrSet g c P k := rfl

theorem mem_pairsNbrSet {g : ℕ × ℕ → ℚ} {c : ℚ} {P : List (ℕ × ℕ)} {k m : ℕ} :
    m ∈ pairsNbrSet g c P k
      ↔ ∃ p ∈ P, g p ≤ c ∧ ((p.1 = k ∧ p.2 = m) ∨ (p.1 ≠ k ∧ p.2 = k ∧ p.1 = m)) := by
  induction P with
  | nil => simp [pairsNbrSet]
  | cons p P ih =>
    rw [pairsNbrSet_cons]
    simp only [Finset.mem_union, ih, List.mem_cons]
    constructor
    · rintro (hc | ⟨q, hq, hgc, hq2⟩)
      · refine ⟨p, Or.inl rfl, ?_⟩
        unfold pairContrib at hc
        by_cases hg : g p ≤ c
        · rw [if_pos hg] at hc
          refine ⟨hg, ?_⟩
          by_cases h1 : p.1 = k
          · rw [if_pos h1] at hc
            simp only [Finset.mem_singleton] at hc
            exact Or.inl ⟨h1, hc.symm⟩
          · rw [if_neg h1] at hc
            by_cases h2 : p.2 = k
            · rw [if_pos h2] at hc
              simp only [Finset.mem_singleton] at hc
              exact Or.inr ⟨h1, h2, hc.symm⟩
            · rw [if_neg h2] at hc
              simp at hc
        · rw [if_neg hg] at hc
          simp at hc
      · exact ⟨q, Or.inr hq, hgc, hq2⟩
    · rintro ⟨q, hq | hq, hgc, hq2⟩
      · left
        subst hq
        unfold pairContrib
        rw [if_pos hgc]
        rcases hq2 with ⟨h1, h2⟩ | ⟨h1, h2, h3⟩
        · rw [if_pos h1]
          simp [h2]
        · rw [if_neg h1, if_pos h2]
          simp [h3]
      · exact Or.inr ⟨q, hq, hgc, hq2⟩

theorem foldl_nbrStep_char (c : ℚ) (g : ℕ × ℕ → ℚ) (n : ℕ) :
    ∀ (P : List (ℕ × ℕ)) (ls : List (List ℕ)) (f : ℕ → Finset ℕ),
    ls.length = n → (∀ p ∈ P, p.2 < p.1 ∧ p.1 < n) →
    (∀ k, (ls.getD k []).toFinset = f k) →
    ∀ k, ((P.foldl (fun s p => nbrStep c s (p, g p)) ls).getD k []).toFinset
        = f k ∪ pairsNbrSet g c P k := by
  intro P
  induction P with
  | nil =>
    intro ls f hlen hP hf k
    rw [List.foldl_nil, show pairsNbrSet g c [] k = ∅ from rfl, Finset.union_empty]
    exact hf k
  | cons p P ih =>
    intro ls f hlen hP hf k
    obtain ⟨hba, han⟩ := hP p (List.mem_cons_self _ _)
    have hne : p.1 ≠ p.2 := Nat.ne_of_gt hba
    have hstep : ∀ k, ((nbrStep c ls (p, g p)).getD k []).toFinset
        = f k ∪ pairContrib g c k p := by
      intro k
      unfold nbrStep pairContrib
      by_cases hg : g p ≤ c
      · simp only [if_pos hg]
        by_cases hk1 : p.1 = k
        · subst hk1
          rw [addNbr_getD_ne _ (Ne.symm hne),
            addNbr_getD_self ls (by rw [hlen]; exact han),
            toFinset_append_singleton, hf, if_pos rfl]
          ext x
          simp only [Finset.mem_insert, Finset.mem_union, Finset.mem_singleton]
          tauto
        · by_cases hk2 : p.2 = k
          · subst hk2
            rw [addNbr_getD_self _ (by rw [addNbr_length, hlen]; exact lt_trans hba han),
              addNbr_getD_ne _ hk1, toFinset_append_singleton, hf, if_neg hk1, if_pos rfl]
            ext x
            simp only [Finset.mem_insert, Finset.mem_union, Finset.mem_singleton]
            tauto
          · rw [addNbr_getD_ne _ hk2, addNbr_getD_ne _ hk1, hf, if_neg hk1, if_neg hk2]
            simp
      · simp only [if_neg hg, hf, Finset.union_empty]
    rw [List.foldl_cons, pairsNbrSet_cons]
    rw [ih (nbrStep c ls (p, g p)) (fun k => f k ∪ pairContrib g c k p)
      (by rw [nbrStep_length]; exact hlen)
      (fun q hq => hP q (List.mem_cons_of_mem _ hq)) hstep k]
    rw [Finset.union_assoc]

/-! ### The distance matrix of `cluster_fingerprints` -/

theorem tanimoto_comm (a b : Fingerprint) : tanimoto a b = tanimoto b a := by
  simp [tanimoto, Finset.union_comm, Finset.inter_comm]

theorem tanimotoDist_comm (a b : Fingerprint) : tanimotoDist a b = tanimotoDist b a := by
  simp [tanimotoDist, tanimoto_comm]

theorem take_eq_map_range (fps : List Fingerprint) {i : ℕ} (h : i ≤ fps.length) :
    fps.take i = (List.range i).map (fun j => fps.getD j ∅) := by
  apply List.ext_getElem
  · simp [List.length_take, Nat.min_eq_left h]
  · intro m h1 h2
    simp only [List.getElem_take, List.getElem_map, List.getElem_range]
    have hm : m < fps.length := by
      simp [List.length_take] at h1
      omega
    rw [List.getD_eq_getElem fps ∅ hm]

theorem clusterDists_eq (fps : List Fingerprint) :
    clusterDists fps
      = (triPairs fps.length).map
          (fun p => tanimotoDist (fps.getD p.1 ∅) (fps.getD p.2 ∅)) := by
  unfold clusterDists triPairs
  rw [List.map_flatMap, List.flatMap_def, List.flatMap_def]
  apply congrArg List.flatten
  apply List.map_congr_left
  intro i hi
  rw [List.mem_range] at hi
  rw [bulkTanimotoSimilarity, List.map_map, take_eq_map_range fps (le_of_lt hi),
    List.map_map, List.map_map]
  apply List.map_congr_left
  intro j hj
  simp [Function.comp, tanimotoDist]

theorem clusterNbrLists_char (fps : List Fingerprint) (cutoff : ℚ) {k : ℕ}
    (hk : k < fps.length) :
    ((clusterNbrLists (clusterDists fps) fps.length cutoff).getD k []).toFinset
      = nbrFinset fps cutoff k := by
  unfold clusterNbrLists buildNbrLists
  rw [clusterDists_eq]
  have hzip : (triPairs fps.length).zip
      ((triPairs fps.length).map
        (fun p => tanimotoDist (fps.getD p.1 ∅) (fps.getD p.2 ∅)))
      = (triPairs fps.length).map
        (fun p => (p, tanimotoDist (fps.getD p.1 ∅) (fps.getD p.2 ∅))) := by
    have := List.zip_map' id (fun p : ℕ × ℕ => tanimotoDist (fps.getD p.1 ∅) (fps.getD p.2 ∅))
      (triPairs fps.length)
    simpa using this
  rw [hzip, List.foldl_map]
  have hrep : ∀ j : ℕ, ((List.replicate fps.length ([] : List ℕ)).getD j []) = [] := by
    intro j
    rcases Nat.lt_or_ge j fps.length with h | h
    · rw [List.getD_eq_getElem _ _ (by simpa using h)]
      simp [List.getElem_replicate]
    · exact List.getD_eq_default _ _ (by simpa using h)
  rw [foldl_nbrStep_char cutoff
    (fun p : ℕ × ℕ => tanimotoDist (fps.getD p.1 ∅) (fps.getD p.2 ∅)) fps.length
    (triPairs fps.length) (List.replicate fps.length []) (fun _ => ∅)
    (List.length_replicate _ _) (fun p hp => mem_triPairs.mp hp)
    (fun j => by rw [hrep]; simp) k]
  rw [Finset.empty_union]
  ext m
  rw [mem_pairsNbrSet]
  simp only [nbrFinset, Finset.mem_filter, Finset.mem_range, butinaClose, decide_eq_true_eq]
  constructor
  · rintro ⟨p, hp, hg, ⟨h1, h2⟩ | ⟨h1, h2, h3⟩⟩
    · obtain ⟨hba, han⟩ := mem_triPairs.mp hp
      subst h1
      subst h2
      exact ⟨lt_trans hba han, Nat.ne_of_lt hba, hg⟩
    · obtain ⟨hba, han⟩ := mem_triPairs.mp hp
      subst h2
      subst h3
      exact ⟨han, Nat.ne_of_gt hba, by rwa [tanimotoDist_comm]⟩
  · rintro ⟨hm, hmk, hd⟩
    rcases Nat.lt_or_ge m k with hlt | hge
    · exact ⟨(k, m), mem_triPairs.mpr ⟨hlt, hk⟩, hd, Or.inl ⟨rfl, rfl⟩⟩
    · have hkm : k < m := lt_of_le_of_ne hge (Ne.symm hmk)
      exact ⟨(m, k), mem_triPairs.mpr ⟨hkm, hm⟩, by rwa [tanimotoDist_comm] at hd,
        Or.inr ⟨hmk, rfl, rfl⟩⟩

theorem clusterNbrLists_length (fps : List Fingerprint) (cutoff : ℚ) :
    (clusterNbrLists (clusterDists fps) fps.length cutoff).length = fps.length := by
  unfold clusterNbrLists buildNbrLists
  rw [foldl_nbrStep_length, List.length_replicate]

theorem clusterNbrLists_bound (fps : List Fingerprint) (cutoff : ℚ) (k x : ℕ)
    (hx : x ∈ (clusterNbrLists (clusterDists fps) fps.length cutoff).getD k []) :
    x < fps.length ∧ x ≠ k := by
  by_cases hk : k < fps.length
  · have := clusterNbrLists_char fps cutoff hk
    have hx2 : x ∈ nbrFinset fps cutoff k := by
      rw [← this, List.mem_toFinset]
      exact hx
    simp only [nbrFinset, Finset.mem_filter, Finset.mem_range] at hx2
    exact ⟨hx2.1, hx2.2.1⟩
  · rw [List.getD_eq_default _ _ (by rw [clusterNbrLists_length]; omega)] at hx
    simp at hx

/-! ### The Butina main loop: partition invariant -/

theorem butinaLoop_partition (nbrL : List (List ℕ)) (n : ℕ)
    (hn : ∀ k x, x ∈ nbrL.getD k [] → x < n ∧ x ≠ k) :
    ∀ (tl : List (ℕ × ℕ)) (seen : Finset ℕ) (res : List (List ℕ)),
    res.flatten.Nodup → res.flatten.toFinset = seen →
    (∀ k, k < n → k ∉ seen → k ∈ tl.map Prod.snd) →
    (∀ t ∈ tl, t.2 < n) → seen ⊆ Finset.range n →
    (butinaLoop nbrL tl seen res).flatten.Nodup ∧
      (butinaLoop nbrL tl seen res).flatten.toFinset = Finset.range n := by
  intro tl
  induction tl with
  | nil =>
    intro seen res hnd hts hcov htl hsub
    rw [butinaLoop]
    refine ⟨hnd, ?_⟩
    rw [hts]
    apply Finset.Subset.antisymm hsub
    intro k hk
    rw [Finset.mem_range] at hk
    by_contra hmem
    have := hcov k hk hmem
    simp at this
  | cons t rest ih =>
    intro seen res hnd hts hcov htl hsub
    by_cases hseen : t.2 ∈ seen
    · rw [show butinaLoop nbrL (t :: rest) seen res = butinaLoop nbrL rest seen res by
        simp [butinaLoop, hseen]]
      apply ih seen res hnd hts ?_ (fun q hq => htl q (List.mem_cons_of_mem _ hq)) hsub
      intro k hk hkseen
      have h := hcov k hk hkseen
      simp only [List.map_cons, List.mem_cons] at h
      rcases h with h | h
      · exact absurd (h ▸ hseen) hkseen
      · exact h
    · rw [show butinaLoop nbrL (t :: rest) seen res
          = butinaLoop nbrL rest (absorbNbrs (insert t.2 seen) (nbrL.getD t.2 [])).2
              (res ++ [t.2 :: (absorbNbrs (insert t.2 seen) (nbrL.getD t.2 [])).1]) by
        simp [butinaLoop, hseen]]
      set p := absorbNbrs (insert t.2 seen) (nbrL.getD t.2 []) with hp
      have hp1mem : ∀ x ∈ p.1, x ∈ nbrL.getD t.2 [] ∧ x ∉ insert t.2 seen :=
        fun x hx => absorbNbrs_mem _ _ x hx
      have hp1nd : p.1.Nodup := absorbNbrs_nodup _ _
      have hpseen : p.2 = insert t.2 seen ∪ p.1.toFinset := absorbNbrs_seen _ _
      have hclnd : (t.2 :: p.1).Nodup := by
        rw [List.nodup_cons]
        refine ⟨fun hmem => ?_, hp1nd⟩
        exact (hp1mem _ hmem).2 (Finset.mem_insert_self _ _)
      have hclfresh : ∀ x ∈ t.2 :: p.1, x ∉ seen := by
        intro x hx
        rcases List.mem_cons.mp hx with rfl | hx
        · exact hseen
        · exact fun hs => (hp1mem _ hx).2 (Finset.mem_insert_of_mem hs)
      apply ih
      · rw [List.flatten_append, List.flatten_cons, List.flatten_nil, List.append_nil,
          List.nodup_append]
        refine ⟨hnd, hclnd, ?_⟩
        intro x hx hx2
        have : x ∈ seen := by
          rw [← hts]
          exact List.mem_toFinset.mpr hx
        exact hclfresh x hx2 this
      · rw [List.flatten_append, List.flatten_cons, List.flatten_nil, List.append_nil,
          List.toFinset_append, hts, hpseen]
        ext x
        simp only [Finset.mem_union, List.toFinset_cons, Finset.mem_insert, List.mem_toFinset]
        tauto
      · intro k hk hkseen
        have hkseen2 : k ∉ seen := by
          intro hs
          apply hkseen
          rw [hpseen]
          exact Finset.mem_union_left _ (Finset.mem_insert_of_mem hs)
        have h := hcov k hk hkseen2
        simp only [List.map_cons, List.mem_cons] at h
        rcases h with h | h
        · exfalso
          apply hkseen
          rw [hpseen, h]
          exact Finset.mem_union_left _ (Finset.mem_insert_self _ _)
        · exact h
      · exact fun q hq => htl q (List.mem_cons_of_mem _ hq)
      · rw [hpseen]
        intro x hx
        rcases Finset.mem_union.mp hx with hx | hx
        · rcases Finset.mem_insert.mp hx with rfl | hx
          · exact Finset.mem_range.mpr (htl t (List.mem_cons_self _ _))
          · exact hsub hx
        · rw [List.mem_toFinset] at hx
          exact Finset.mem_range.mpr (hn _ _ (hp1mem _ hx).1).1

theorem clusterTList_map_snd_perm (dists : List ℚ) (n : ℕ) (c : ℚ) :
    ((clusterTList dists n c).map Prod.snd).Perm (List.range n) := by
  have hperm := List.perm_insertionSort tListLE
    ((List.range n).map (fun x => (((clusterNbrLists dists n c).getD x []).length, x)))
  have h2 := hperm.map Prod.snd
  rw [List.map_map] at h2
  have h3 : (List.range n).map
      (Prod.snd ∘ fun x => (((clusterNbrLists dists n c).getD x []).length, x))
      = List.range n := by
    have : (Prod.snd ∘ fun x : ℕ => (((clusterNbrLists dists n c).getD x []).length, x))
        = id := by
      funext x
      rfl
    rw [this, List.map_id]
  rw [h3] at h2
  exact h2

theorem clusterTList_snd_lt (dists : List ℚ) (n : ℕ) (c : ℚ) :
    ∀ t ∈ clusterTList dists n c, t.2 < n := by
  intro t ht
  have hperm := List.perm_insertionSort tListLE
    ((List.range n).map (fun x => (((clusterNbrLists dists n c).getD x []).length, x)))
  have := hperm.mem_iff.mp ht
  simp only [List.mem_map, List.mem_range] at this
  obtain ⟨x, hx, rfl⟩ := this
  exact hx

theorem cluster_fingerprints_flatten_perm (fps : List Fingerprint) (cutoff : ℚ) :
    ((cluster_fingerprints fps cutoff).flatten).Perm (List.range fps.length) := by
  have h := butinaLoop_partition
    (clusterNbrLists (clusterDists fps) fps.length cutoff) fps.length
    (fun k x hx => clusterNbrLists_bound fps cutoff k x hx)
    (clusterTList (clusterDists fps) fps.length cutoff) ∅ []
    (by simp) (by simp)
    (fun k hk _ => (clusterTList_map_snd_perm (clusterDists fps) fps.length cutoff).mem_iff.mpr
      (List.mem_range.mpr hk))
    (clusterTList_snd_lt (clusterDists fps) fps.length cutoff)
    (by simp)
  exact List.perm_of_nodup_nodup_toFinset_eq h.1 (List.nodup_range _)
    (h.2.trans (range_list_toFinset _).symm)

theorem countP_flatten_nodup : ∀ (cls : List (List ℕ)) (k : ℕ),
    cls.flatten.Nodup → k ∈ cls.flatten →
    cls.countP (fun c => decide (k ∈ c)) = 1 := by
  intro cls
  induction cls with
  | nil => intro k _ hk; simp at hk
  | cons c cls ih =>
    intro k hnd hk
    rw [List.flatten_cons, List.nodup_append] at hnd
    obtain ⟨hc, hcls, hdisj⟩ := hnd
    rw [List.flatten_cons, List.mem_append] at hk
    rw [List.countP_cons]
    rcases hk with hk | hk
    · have hz : cls.countP (fun cl => decide (k ∈ cl)) = 0 := by
        rw [List.countP_eq_zero]
        intro cl hcl
        simp only [decide_eq_true_eq]
        intro hkcl
        exact hdisj hk (List.mem_flatten.mpr ⟨cl, hcl, hkcl⟩)
      simp [hz, hk]
    · have hkc : k ∉ c := fun hkc => hdisj hkc hk
      rw [ih k hcls hk]
      simp [hkc]

/-! ### Refinement to the sphere-exclusion reference -/

theorem butinaLoop_sphereExclusion (nbrL : List (List ℕ)) (n : ℕ) (close : ℕ → ℕ → Bool)
    (hchar : ∀ k, k < n → (nbrL.getD k []).toFinset
      = (Finset.range n).filter (fun m => m ≠ k ∧ close k m = true)) :
    ∀ (tl : List (ℕ × ℕ)) (seen : Finset ℕ) (res : List (List ℕ)),
    (∀ t ∈ tl, t.2 < n) →
    (butinaLoop nbrL tl seen res).map List.toFinset
      = res.map List.toFinset ++ sphereExclusion close n (tl.map Prod.snd) seen := by
  intro tl
  induction tl with
  | nil =>
    intro seen res htl
    rw [butinaLoop, List.map_nil, sphereExclusion, List.append_nil]
  | cons t rest ih =>
    intro seen res htl
    by_cases hseen : t.2 ∈ seen
    · rw [show butinaLoop nbrL (t :: rest) seen res = butinaLoop nbrL rest seen res by
        simp [butinaLoop, hseen]]
      rw [List.map_cons,
        show sphereExclusion close n (t.2 :: rest.map Prod.snd) seen
          = sphereExclusion close n (rest.map Prod.snd) seen by
          rw [sphereExclusion, if_pos hseen]]
      exact ih seen res (fun q hq => htl q (List.mem_cons_of_mem _ hq))
    · rw [show butinaLoop nbrL (t :: rest) seen res
          = butinaLoop nbrL rest (absorbNbrs (insert t.2 seen) (nbrL.getD t.2 [])).2
              (res ++ [t.2 :: (absorbNbrs (insert t.2 seen) (nbrL.getD t.2 [])).1]) by
        simp [butinaLoop, hseen]]
      set p := absorbNbrs (insert t.2 seen) (nbrL.getD t.2 []) with hp
      have ht2 : t.2 < n := htl t (List.mem_cons_self _ _)
      have hp1 : p.1.toFinset
          = ((Finset.range n).filter (fun m => m ≠ t.2 ∧ close t.2 m = true))
              \ insert t.2 seen := by
        rw [hp, absorbNbrs_toFinset, hchar t.2 ht2]
      have hcl : (t.2 :: p.1).toFinset
          = insert t.2 ((Finset.range n).filter
              (fun q => q ∉ seen ∧ close t.2 q = true)) := by
        rw [List.toFinset_cons, hp1]
        ext x
        simp only [Finset.mem_insert, Finset.mem_sdiff, Finset.mem_filter, Finset.mem_range]
        constructor
        · rintro (rfl | ⟨⟨hx, hne, hc⟩, hni⟩)
          · exact Or.inl rfl
          · exact Or.inr ⟨hx, fun hs => hni (Or.inr hs), hc⟩
        · rintro (rfl | ⟨hx, hns, hc⟩)
          · exact Or.inl rfl
          · by_cases hxe : x = t.2
            · exact Or.inl hxe
            · exact Or.inr ⟨⟨hx, hxe, hc⟩, by simp [Finset.mem_insert, hxe, hns]⟩
      have hseen2 : p.2 = seen ∪ insert t.2 ((Finset.range n).filter
          (fun q => q ∉ seen ∧ close t.2 q = true)) := by
        rw [hp, absorbNbrs_seen, ← hp, hp1]
        ext x
        simp only [Finset.mem_union, Finset.mem_insert, Finset.mem_sdiff, Finset.mem_filter,
          Finset.mem_range]
        constructor
        · rintro ((rfl | hx) | ⟨⟨hx, hne, hc⟩, hni⟩)
          · exact Or.inr (Or.inl rfl)
          · exact Or.inl hx
          · exact Or.inr (Or.inr ⟨hx, fun hs => hni (Or.inr hs), hc⟩)
        · rintro (hx | (rfl | ⟨hx, hns, hc⟩))
          · exact Or.inl (Or.inr hx)
          · exact Or.inl (Or.inl rfl)
          · by_cases hxe : x = t.2
            · exact Or.inl (Or.inl hxe)
            · exact Or.inr ⟨⟨hx, hxe, hc⟩, by simp [Finset.mem_insert, hxe, hns]⟩
      rw [ih p.2 (res ++ [t.2 :: p.1]) (fun q hq => htl q (List.mem_cons_of_mem _ hq))]
      rw [List.map_append, List.map_cons, List.map_nil, List.map_cons]
      rw [show sphereExclusion close n (t.2 :: rest.map Prod.snd) seen
          = insert t.2 ((Finset.range n).filter (fun q => q ∉ seen ∧ close t.2 q = true))
            :: sphereExclusion close n (rest.map Prod.snd)
                (seen ∪ insert t.2 ((Finset.range n).filter
                  (fun q => q ∉ seen ∧ close t.2 q = true))) by
          rw [sphereExclusion, if_neg hseen]]
      rw [hcl, hseen2]
      simp

/-- The clusters produced by the Butina main loop all consist of a centroid
followed by members of the centroid's neighbor list. -/
theorem butinaLoop_clusters_shape (nbrL : List (List ℕ)) (n : ℕ) :
    ∀ (tl : List (ℕ × ℕ)) (seen : Finset ℕ) (res : List (List ℕ)),
    (∀ t ∈ tl, t.2 < n) →
    (∀ c ∈ res, ∃ hd tl2, c = hd :: tl2 ∧ hd < n ∧ ∀ m ∈ tl2, m ∈ nbrL.getD hd []) →
    ∀ c ∈ butinaLoop nbrL tl seen res,
      ∃ hd tl2, c = hd :: tl2 ∧ hd < n ∧ ∀ m ∈ tl2, m ∈ nbrL.getD hd [] := by
  intro tl
  induction tl with
  | nil =>
    intro seen res htl hres c hc
    rw [butinaLoop] at hc
    exact hres c hc
  | cons t rest ih =>
    intro seen res htl hres c hc
    by_cases hseen : t.2 ∈ seen
    · rw [show butinaLoop nbrL (t :: rest) seen res = butinaLoop nbrL rest seen res by
        simp [butinaLoop, hseen]] at hc
      exact ih seen res (fun q hq => htl q (List.mem_cons_of_mem _ hq)) hres c hc
    · rw [show butinaLoop nbrL (t :: rest) seen res
          = butinaLoop nbrL rest (absorbNbrs (insert t.2 seen) (nbrL.getD t.2 [])).2
              (res ++ [t.2 :: (absorbNbrs (insert t.2 seen) (nbrL.getD t.2 [])).1]) by
        simp [butinaLoop, hseen]] at hc
      apply ih _ _ (fun q hq => htl q (List.mem_cons_of_mem _ hq)) ?_ c hc
      intro c2 hc2
      rcases List.mem_append.mp hc2 with h | h
      · exact hres c2 h
      · rw [List.mem_singleton] at h
        subst h
        exact ⟨t.2, _, rfl, htl t (List.mem_cons_self _ _),
          fun m hm => (absorbNbrs_mem _ _ m hm).1⟩

theorem cluster_fingerprints_centroid_first (fps : List Fingerprint) (cutoff : ℚ) :
    ∀ c ∈ cluster_fingerprints fps cutoff,
      ∃ hd tl2, c = hd :: tl2 ∧ hd < fps.length ∧
        ∀ m ∈ tl2, m ≠ hd ∧ m < fps.length ∧
          tanimotoDist (fps.getD hd ∅) (fps.getD m ∅) ≤ cutoff := by
  intro c hc
  obtain ⟨hd, tl2, rfl, hhd, hmem⟩ := butinaLoop_clusters_shape
    (clusterNbrLists (clusterDists fps) fps.length cutoff) fps.length
    (clusterTList (clusterDists fps) fps.length cutoff) ∅ []
    (clusterTList_snd_lt _ _ _) (by intro c2 hc2; simp at hc2) c hc
  refine ⟨hd, tl2, rfl, hhd, fun m hm => ?_⟩
  have hx : m ∈ nbrFinset fps cutoff hd := by
    rw [← clusterNbrLists_char fps cutoff hhd, List.mem_toFinset]
    exact hmem m hm
  simp only [nbrFinset, Finset.mem_filter, Finset.mem_range, butinaClose,
    decide_eq_true_eq] at hx
  exact ⟨hx.2.1, hx.1, hx.2.2⟩

/-! ### cutoff 0 -/

theorem tanimoto_lt_one {a b : Fingerprint} (h : a ≠ b) : tanimoto a b < 1 := by
  unfold tanimoto
  by_cases hu : (a ∪ b).card = 0
  · rw [if_pos hu]
    norm_num
  · rw [if_neg hu]
    have hsub : a ∩ b ⊆ a ∪ b := Finset.inter_subset_union
    have hlt : (a ∩ b).card < (a ∪ b).card := by
      rcases lt_or_eq_of_le (Finset.card_le_card hsub) with h1 | h1
      · exact h1
      · exfalso
        have heq : a ∩ b = a ∪ b := Finset.eq_of_subset_of_card_le hsub (le_of_eq h1.symm)
        apply h
        apply Finset.Subset.antisymm
        · intro x hx
          have hx2 : x ∈ a ∩ b := heq ▸ Finset.mem_union_left _ hx
          exact (Finset.mem_inter.mp hx2).2
        · intro x hx
          have hx2 : x ∈ a ∩ b := heq ▸ Finset.mem_union_right _ hx
          exact (Finset.mem_inter.mp hx2).1
    rw [div_lt_one (by exact_mod_cast Nat.pos_of_ne_zero hu)]
    exact_mod_cast hlt

theorem cutoff_zero_singleton_clusters (fps : List Fingerprint) (hnd : fps.Nodup) :
    ∀ c ∈ cluster_fingerprints fps 0, c.length = 1 := by
  intro c hc
  obtain ⟨hd, tl2, rfl, hhd, hmem⟩ := cluster_fingerprints_centroid_first fps 0 c hc
  have htl2 : tl2 = [] := by
    by_contra hne
    obtain ⟨m, hm⟩ := List.exists_mem_of_ne_nil tl2 hne
    obtain ⟨hmne, hmlt, hdist⟩ := hmem m hm
    have hfps : fps.getD hd ∅ ≠ fps.getD m ∅ := by
      rw [List.getD_eq_getElem _ _ hhd, List.getD_eq_getElem _ _ hmlt]
      intro heq
      exact hmne ((List.Nodup.getElem_inj_iff hnd).mp heq).symm
    have hlt := tanimoto_lt_one hfps
    rw [tanimotoDist] at hdist
    linarith
  rw [htl2]
  rfl

/-! ### Writing cluster labels back into the dataframe -/

theorem setByLabel_length (labels : List ℕ) (col : List ℤ) (lab : ℕ) (v : ℤ)
    (h : col.length = labels.length) :
    (setByLabel labels col lab v).length = labels.length := by
  simp [setByLabel, h]

theorem setByLabel_getD (labels : List ℕ) (hnd : labels.Nodup) (col : List ℤ)
    (h : col.length = labels.length) {j : ℕ} (hj : j < labels.length) (v d : ℤ) :
    ∀ p, p < labels.length →
      (setByLabel labels col (labels.getD j 0) v).getD p d
        = if p = j then v else col.getD p d := by
  intro p hp
  have hp2 : p < col.length := by omega
  have hlen := setByLabel_length labels col (labels.getD j 0) v h
  rw [List.getD_eq_getElem _ _ (by omega)]
  unfold setByLabel
  rw [List.getElem_map, List.getElem_zip]
  have hgd : labels.getD j 0 = labels[j] := List.getD_eq_getElem labels 0 hj
  simp only [hgd]
  by_cases hpj : p = j
  · subst hpj
    rw [if_pos rfl, if_pos rfl]
  · have hne : labels[p] ≠ labels[j] :=
      fun he => hpj ((List.Nodup.getElem_inj_iff hnd).mp he)
    rw [if_neg hne, if_neg hpj, List.getD_eq_getElem col d hp2]

theorem writeCluster_length (labels : List ℕ) (v : ℤ) :
    ∀ (c : List ℕ) (col : List ℤ), col.length = labels.length →
      (writeCluster labels col v c).length = labels.length := by
  intro c
  induction c with
  | nil => intro col h; exact h
  | cons j c ih =>
    intro col h
    rw [writeCluster, List.foldl_cons]
    exact ih _ (setByLabel_length labels col _ v h)

theorem writeCluster_getD (labels : List ℕ) (hnd : labels.Nodup) (v d : ℤ) :
    ∀ (c : List ℕ) (col : List ℤ), col.length = labels.length →
      (∀ j ∈ c, j < labels.length) →
      ∀ p, p < labels.length →
        (writeCluster labels col v c).getD p d = if p ∈ c then v else col.getD p d := by
  intro c
  induction c with
  | nil =>
    intro col h hc p hp
    rw [writeCluster, List.foldl_nil]
    simp
  | cons j c ih =>
    intro col h hc p hp
    rw [writeCluster, List.foldl_cons]
    have hj : j < labels.length := hc j (List.mem_cons_self _ _)
    have h2 := setByLabel_length labels col (labels.getD j 0) v h
    rw [show List.foldl (fun col2 j2 => setByLabel labels col2 (labels.getD j2 0) v)
          (setByLabel labels col (labels.getD j 0) v) c
        = writeCluster labels (setByLabel labels col (labels.getD j 0) v) v c from rfl]
    rw [ih _ h2 (fun q hq => hc q (List.mem_cons_of_mem _ hq)) p hp]
    by_cases hpc : p ∈ c
    · rw [if_pos hpc, if_pos (List.mem_cons_of_mem _ hpc)]
    · rw [if_neg hpc, setByLabel_getD labels hnd col h hj v d p hp]
      by_cases hpj : p = j
      · rw [if_pos hpj, if_pos (by rw [hpj]; exact List.mem_cons_self _ _)]
      · rw [if_neg hpj, if_neg (by simp [List.mem_cons, hpj, hpc])]

theorem clustersWrite_getD (labels : List ℕ) (hnd : labels.Nodup) (d : ℤ) :
    ∀ (cls : List (List ℕ)) (k0 : ℕ) (col : List ℤ),
    col.length = labels.length → cls.flatten.Nodup →
    (∀ j ∈ cls.flatten, j < labels.length) →
    (∀ m, m < cls.length → ∀ p ∈ cls.getD m [],
      ((cls.enumFrom k0).foldl
        (fun col2 ic => writeCluster labels col2 (ic.1 : ℤ) ic.2) col).getD p d
          = ((k0 + m : ℕ) : ℤ))
    ∧ (∀ p, p < labels.length → p ∉ cls.flatten →
      ((cls.enumFrom k0).foldl
        (fun col2 ic => writeCluster labels col2 (ic.1 : ℤ) ic.2) col).getD p d
          = col.getD p d) := by
  intro cls
  induction cls with
  | nil =>
    intro k0 col hcol hnodup hbound
    refine ⟨fun m hm => by simp at hm, fun p hp hpf => ?_⟩
    rw [List.enumFrom, List.foldl_nil]
  | cons c cls ih =>
    intro k0 col hcol hnodup hbound
    rw [List.flatten_cons, List.nodup_append] at hnodup
    obtain ⟨hcnd, hclsnd, hdisj⟩ := hnodup
    have hboundc : ∀ j ∈ c, j < labels.length := fun j hj =>
      hbound j (by rw [List.flatten_cons]; exact List.mem_append_left _ hj)
    have hboundcls : ∀ j ∈ cls.flatten, j < labels.length := fun j hj =>
      hbound j (by rw [List.flatten_cons]; exact List.mem_append_right _ hj)
    have hcol1 : (writeCluster labels col (k0 : ℤ) c).length = labels.length :=
      writeCluster_length labels _ c col hcol
    have hstep : (List.enumFrom k0 (c :: cls)).foldl
        (fun col2 ic => writeCluster labels col2 (ic.1 : ℤ) ic.2) col
        = (List.enumFrom (k0 + 1) cls).foldl
          (fun col2 ic => writeCluster labels col2 (ic.1 : ℤ) ic.2)
          (writeCluster labels col (k0 : ℤ) c) := by
      rw [List.enumFrom, List.foldl_cons]
    obtain ⟨ih1, ih2⟩ := ih (k0 + 1) (writeCluster labels col (k0 : ℤ) c) hcol1 hclsnd hboundcls
    constructor
    · intro m hm p hp
      match m with
      | 0 =>
        have hpc : p ∈ c := by simpa using hp
        have hpl : p < labels.length := hboundc p hpc
        have hpfcls : p ∉ cls.flatten := fun hpf => hdisj hpc hpf
        rw [hstep, ih2 p hpl hpfcls,
          writeCluster_getD labels hnd (k0 : ℤ) d c col hcol hboundc p hpl, if_pos hpc]
        norm_num
      | Nat.succ m2 =>
        have hm2 : m2 < cls.length := by simpa using hm
        have hp2 : p ∈ cls.getD m2 [] := by simpa using hp
        rw [hstep, ih1 m2 hm2 p hp2]
        congr 1
        omega
    · intro p hpl hpf
      rw [List.flatten_cons, List.mem_append] at hpf
      push_neg at hpf
      rw [hstep, ih2 p hpl hpf.2,
        writeCluster_getD labels hnd (k0 : ℤ) d c col hcol hboundc p hpl, if_neg hpf.1]

/-! ### Descriptor computation: column bookkeeping -/

theorem atSet_nrows {Mol : Type} (df : DF Mol) (i : ℕ) (name : String) (v : DVal Mol) :
    (atSet df i name v).nrows = df.nrows := by
  unfold atSet
  split <;> rfl

theorem any_name_iff {Mol : Type} (df : DF Mol) (name : String) :
    (df.cols.any (fun c => c.1 = name)) = true ↔ name ∈ colNames df := by
  rw [List.any_eq_true]
  unfold colNames
  simp

theorem atSet_colNames_of_mem {Mol : Type} (df : DF Mol) (i : ℕ) (name : String)
    (v : DVal Mol) (h : name ∈ colNames df) :
    colNames (atSet df i name v) = colNames df := by
  unfold atSet
  rw [if_pos ((any_name_iff df name).mpr h)]
  unfold colNames
  simp only [List.map_map]
  apply List.map_congr_left
  intro c _
  simp only [Function.comp_apply]
  split <;> rfl

theorem atSet_colNames_of_not_mem {Mol : Type} (df : DF Mol) (i : ℕ) (name : String)
    (v : DVal Mol) (h : name ∉ colNames df) :
    colNames (atSet df i name v) = colNames df ++ [name] := by
  unfold atSet
  rw [if_neg (fun ha => h ((any_name_iff df name).mp ha))]
  unfold colNames
  simp

theorem atSet_getCol_ne {Mol : Type} (df : DF Mol) (i : ℕ) (name other : String)
    (v : DVal Mol) (h : other ≠ name) :
    getCol (atSet df i name v) other = getCol df other := by
  unfold atSet
  by_cases ha : df.cols.any (fun c => c.1 = name) = true
  · rw [if_pos ha]
    unfold getCol
    simp only [List.find?_map]
    have hcomp : ((fun c : String × List (DVal Mol) => decide (c.1 = other)) ∘
        fun c : String × List (DVal Mol) => if c.1 = name then (c.1, c.2.set i v) else c)
          = fun c : String × List (DVal Mol) => decide (c.1 = other) := by
      funext c
      simp only [Function.comp_apply]
      by_cases hc : c.1 = name
      · rw [if_pos hc]
      · rw [if_neg hc]
    rw [hcomp]
    cases hf : List.find? (fun c : String × List (DVal Mol) => decide (c.1 = other)) df.cols with
    | none => rfl
    | some c =>
      have hc := List.find?_some hf
      simp only [decide_eq_true_eq] at hc
      have hcn : ¬(c.1 = name) := fun he => h (hc ▸ he ▸ rfl)
      simp [if_neg hcn]
  · rw [if_neg ha]
    unfold getCol
    rw [List.find?_append]
    have h2 : List.find? (fun c => decide (c.1 = other))
        [(name, (List.replicate df.nrows (DVal.na : DVal Mol)).set i v)] = none := by
      simp [List.find?, h.symm]
    rw [h2]
    simp

theorem descCells_new {Mol : Type} :
    ∀ (L : List (String × ℚ)) (d : DF Mol) (i : ℕ),
    (L.map Prod.fst).Nodup → (∀ nm ∈ L.map Prod.fst, nm ∉ colNames d) →
    colNames (descCells i d L) = colNames d ++ L.map Prod.fst
      ∧ (∀ other ∈ colNames d, getCol (descCells i d L) other = getCol d other)
      ∧ (descCells i d L).nrows = d.nrows := by
  intro L
  induction L with
  | nil =>
    intro d i _ _
    exact ⟨by simp [descCells], fun other _ => rfl, rfl⟩
  | cons dd L ih =>
    intro d i hnd hnew
    rw [show descCells i d (dd :: L) = descCells i (atSet d i dd.1 (DVal.num dd.2)) L from rfl]
    have hddnew : dd.1 ∉ colNames d := hnew dd.1 (by simp)
    have hnames1 : colNames (atSet d i dd.1 (DVal.num dd.2)) = colNames d ++ [dd.1] :=
      atSet_colNames_of_not_mem d i dd.1 _ hddnew
    rw [List.map_cons] at hnd
    have hLnew : ∀ nm ∈ L.map Prod.fst, nm ∉ colNames (atSet d i dd.1 (DVal.num dd.2)) := by
      intro nm hnm
      rw [hnames1]
      simp only [List.mem_append, List.mem_singleton]
      rintro (hin | hin)
      · exact hnew nm (List.mem_cons_of_mem _ hnm) hin
      · exact (List.nodup_cons.mp hnd).1 (hin ▸ hnm)
    obtain ⟨ih1, ih2, ih3⟩ := ih (atSet d i dd.1 (DVal.num dd.2)) i
      (List.nodup_cons.mp hnd).2 hLnew
    refine ⟨?_, ?_, ?_⟩
    · rw [ih1, hnames1, List.append_assoc]
      rfl
    · intro other hother
      have hne : other ≠ dd.1 := fun he => hddnew (he ▸ hother)
      rw [ih2 other (by rw [hnames1]; exact List.mem_append_left _ hother),
        atSet_getCol_ne d i dd.1 other _ hne]
    · rw [ih3, atSet_nrows]

theorem descCells_present {Mol : Type} :
    ∀ (L : List (String × ℚ)) (d : DF Mol) (i : ℕ),
    (∀ nm ∈ L.map Prod.fst, nm ∈ colNames d) →
    colNames (descCells i d L) = colNames d
      ∧ (∀ other, other ∉ L.map Prod.fst → getCol (descCells i d L) other = getCol d other)
      ∧ (descCells i d L).nrows = d.nrows := by
  intro L
  induction L with
  | nil =>
    intro d i _
    exact ⟨rfl, fun other _ => rfl, rfl⟩
  | cons dd L ih =>
    intro d i hmem
    rw [show descCells i d (dd :: L) = descCells i (atSet d i dd.1 (DVal.num dd.2)) L from rfl]
    have hddmem : dd.1 ∈ colNames d := hmem dd.1 (by simp)
    have hnames1 : colNames (atSet d i dd.1 (DVal.num dd.2)) = colNames d :=
      atSet_colNames_of_mem d i dd.1 _ hddmem
    have hLmem : ∀ nm ∈ L.map Prod.fst, nm ∈ colNames (atSet d i dd.1 (DVal.num dd.2)) := by
      intro nm hnm
      rw [hnames1]
      exact hmem nm (List.mem_cons_of_mem _ hnm)
    obtain ⟨ih1, ih2, ih3⟩ := ih (atSet d i dd.1 (DVal.num dd.2)) i hLmem
    refine ⟨ih1.trans hnames1, ?_, ih3.trans (atSet_nrows d i dd.1 _)⟩
    intro other hother
    rw [List.map_cons] at hother
    have hne : other ≠ dd.1 := fun he => hother (he ▸ List.mem_cons_self _ _)
    have hnL : other ∉ L.map Prod.fst := fun hin => hother (List.mem_cons_of_mem _ hin)
    rw [ih2 other hnL, atSet_getCol_ne d i dd.1 other _ hne]

theorem descRows_preserve {Mol : Type} (descList : List String) (calcD : Mol → List ℚ)
    (molCol : String) (df : DF Mol)
    (hdisj : ∀ nm ∈ descList, nm ∉ colNames df) :
    ∀ (rows : List ℕ) (d : DF Mol),
    colNames d = colNames df ++ descList →
    (∀ nm ∈ colNames df, getCol d nm = getCol df nm) →
    d.nrows = df.nrows →
    colNames (rows.foldl (descRow descList calcD molCol) d) = colNames df ++ descList
      ∧ (∀ nm ∈ colNames df,
          getCol (rows.foldl (descRow descList calcD molCol) d) nm = getCol df nm)
      ∧ (rows.foldl (descRow descList calcD molCol) d).nrows = df.nrows := by
  intro rows
  induction rows with
  | nil =>
    intro d h1 h2 h3
    exact ⟨h1, h2, h3⟩
  | cons i rows ih =>
    intro d h1 h2 h3
    rw [List.foldl_cons]
    have hLmem : ∀ nm ∈ (descList.zip
        (cellDescriptors calcD (getCell d molCol i))).map Prod.fst, nm ∈ colNames d := by
      intro nm hnm
      obtain ⟨pair, hpair, rfl⟩ := List.mem_map.mp hnm
      rw [h1]
      exact List.mem_append_right _ (List.of_mem_zip hpair).1
    obtain ⟨p1, p2, p3⟩ := descCells_present
      (descList.zip (cellDescriptors calcD (getCell d molCol i))) d i hLmem
    apply ih (descRow descList calcD molCol d i)
    · rw [show descRow descList calcD molCol d i
          = descCells i d (descList.zip (cellDescriptors calcD (getCell d molCol i)))
          from rfl, p1, h1]
    · intro nm hnm
      rw [show descRow descList calcD molCol d i
          = descCells i d (descList.zip (cellDescriptors calcD (getCell d molCol i)))
          from rfl]
      rw [p2 nm ?_, h2 nm hnm]
      intro hmem
      obtain ⟨pair, hpair, heq⟩ := List.mem_map.mp hmem
      exact hdisj nm (heq ▸ (List.of_mem_zip hpair).1) hnm
    · rw [show descRow descList calcD molCol d i
          = descCells i d (descList.zip (cellDescriptors calcD (getCell d molCol i)))
          from rfl, p3, h3]

theorem calculate_descriptors_spec {Mol : Type} (descList : List String) (calcD : Mol → List ℚ)
    (df : DF Mol) (molCol : String)
    (hnd : descList.Nodup)
    (hdisj : ∀ nm ∈ descList, nm ∉ colNames df)
    (hcalc : ∀ m, (calcD m).length = descList.length)
    (hmol : ∀ i, i < df.nrows → (getCell df molCol i).isMol = true)
    (hpos : 1 ≤ df.nrows) :
    colNames (calculate_descriptors descList calcD df molCol) = colNames df ++ descList
      ∧ ∀ nm ∈ colNames df,
          getCol (calculate_descriptors descList calcD df molCol) nm = getCol df nm := by
  unfold calculate_descriptors
  obtain ⟨n2, hn⟩ : ∃ n2, df.nrows = n2 + 1 := ⟨df.nrows - 1, by omega⟩
  rw [hn, List.range_succ_eq_map, List.foldl_cons]
  have hmol0 := hmol 0 (by omega)
  obtain ⟨m0, hm0⟩ : ∃ m, getCell df molCol 0 = DVal.mol m := by
    cases hcv : getCell df molCol 0 with
    | mol m => exact ⟨m, rfl⟩
    | na => rw [hcv] at hmol0; simp [DVal.isMol] at hmol0
    | num q => rw [hcv] at hmol0; simp [DVal.isMol] at hmol0
  have hlen : (cellDescriptors calcD (getCell df molCol 0)).length = descList.length := by
    rw [hm0]
    exact hcalc m0
  have hfst : (descList.zip (cellDescriptors calcD (getCell df molCol 0))).map Prod.fst
      = descList := List.map_fst_zip _ _ (le_of_eq hlen.symm)
  obtain ⟨q1, q2, q3⟩ := descCells_new
    (descList.zip (cellDescriptors calcD (getCell df molCol 0))) df 0
    (by rw [hfst]; exact hnd) (by rw [hfst]; exact hdisj)
  have hrows := descRows_preserve descList calcD molCol df hdisj
    (List.map Nat.succ (List.range n2)) (descRow descList calcD molCol df 0)
    (by rw [show descRow descList calcD molCol df 0
        = descCells 0 df (descList.zip (cellDescriptors calcD (getCell df molCol 0)))
        from rfl, q1, hfst])
    (by
      intro nm hnm
      rw [show descRow descList calcD molCol df 0
        = descCells 0 df (descList.zip (cellDescriptors calcD (getCell df molCol 0)))
        from rfl]
      exact q2 nm hnm)
    (by rw [show descRow descList calcD molCol df 0
        = descCells 0 df (descList.zip (cellDescriptors calcD (getCell df molCol 0)))
        from rfl, q3])
  exact ⟨hrows.1, hrows.2.1⟩


/-! ### Claim theorems -/

/-- C1: for every fingerprint list and every cutoff in `(0, 1]`, the
clustering returned by `cluster_fingerprints` is a partition of the input
indices: every index below `n` appears in exactly one output cluster, and
the concatenation of all clusters is a permutation of `0..n-1` (full
coverage, no duplicates). -/
theorem claim1_cluster_fingerprints_partition (fps : List Fingerprint) (cutoff : ℚ)
    (h0 : 0 < cutoff) (h1 : cutoff ≤ 1) :
    (∀ k, k < fps.length →
      (cluster_fingerprints fps cutoff).countP (fun c => decide (k ∈ c)) = 1)
    ∧ ((cluster_fingerprints fps cutoff).flatten).Perm (List.range fps.length) := by
  have hperm := cluster_fingerprints_flatten_perm fps cutoff
  refine ⟨fun k hk => ?_, hperm⟩
  exact countP_flatten_nodup _ k (hperm.nodup_iff.mpr (List.nodup_range _))
    (hperm.mem_iff.mpr (List.mem_range.mpr hk))

/-- Witness for C1 at a concrete input. -/
theorem claim1_witness :
    (0 : ℚ) < 1/2 ∧ (1/2 : ℚ) ≤ 1
    ∧ (cluster_fingerprints [({0} : Finset ℕ), {1}, {0}] (1/2)).countP
        (fun c => decide (0 ∈ c)) = 1
    ∧ ((cluster_fingerprints [({0} : Finset ℕ), {1}, {0}] (1/2)).flatten).Perm
        (List.range 3) := by
  refine ⟨by norm_num, by norm_num, ?_, ?_⟩
  · exact (claim1_cluster_fingerprints_partition [{0}, {1}, {0}] (1/2)
      (by norm_num) (by norm_num)).1 0 (by norm_num)
  · exact (claim1_cluster_fingerprints_partition [{0}, {1}, {0}] (1/2)
      (by norm_num) (by norm_num)).2

/-- C2: on a dataframe with a non-default but duplicate-free row index,
`cluster_dataframe` writes each cluster index through the original row
label recorded in the `df_index` column, so the row at position `p` (the
row whose label is `labels[p]`) receives exactly the cluster index of
fingerprint `p`; and afterwards no row retains the `-1` sentinel, since
every row belongs to exactly one cluster. -/
theorem claim2_cluster_dataframe_label_alignment {Mol : Type} (fp : Mol → Fingerprint)
    (labels : List ℕ) (mols : List Mol) (cutoff : ℚ)
    (hnd : labels.Nodup) (hlen : mols.length = labels.length) :
    (∀ m, m < (cluster_fingerprints (mols.map fp) cutoff).length →
      ∀ p ∈ (cluster_fingerprints (mols.map fp) cutoff).getD m [],
        (cluster_dataframe fp labels mols cutoff).getD p (-1) = (m : ℤ))
    ∧ ∀ p, p < labels.length →
        (cluster_dataframe fp labels mols cutoff).getD p (-1) ≠ -1 := by
  have hn : (mols.map fp).length = labels.length := by rw [List.length_map, hlen]
  have hperm := cluster_fingerprints_flatten_perm (mols.map fp) cutoff
  have hnodup : (cluster_fingerprints (mols.map fp) cutoff).flatten.Nodup :=
    hperm.nodup_iff.mpr (List.nodup_range _)
  have hbound : ∀ j ∈ (cluster_fingerprints (mols.map fp) cutoff).flatten,
      j < labels.length := by
    intro j hj
    have := List.mem_range.mp (hperm.subset hj)
    omega
  obtain ⟨w1, w2⟩ := clustersWrite_getD labels hnd (-1)
    (cluster_fingerprints (mols.map fp) cutoff) 0
    (List.replicate labels.length (-1)) (List.length_replicate _ _) hnodup hbound
  have hdf : cluster_dataframe fp labels mols cutoff
      = ((cluster_fingerprints (mols.map fp) cutoff).enumFrom 0).foldl
          (fun col2 ic => writeCluster labels col2 (ic.1 : ℤ) ic.2)
          (List.replicate labels.length (-1 : ℤ)) := rfl
  constructor
  · intro m hm p hp
    rw [hdf, w1 m hm p hp]
    norm_num
  · intro p hp
    have hpmem : p ∈ (cluster_fingerprints (mols.map fp) cutoff).flatten := by
      apply hperm.mem_iff.mpr
      apply List.mem_range.mpr
      omega
    obtain ⟨c, hc, hpc⟩ := List.mem_flatten.mp hpmem
    obtain ⟨m, hm, hcm⟩ := List.mem_iff_getElem.mp hc
    have hp2 : p ∈ (cluster_fingerprints (mols.map fp) cutoff).getD m [] := by
      rw [List.getD_eq_getElem _ _ hm, hcm]
      exact hpc
    rw [hdf, w1 m hm p hp2]
    intro heq
    omega

/-- Witness for C2 at a concrete input: labels `[7, 3]`, two fingerprints
that do not cluster together at cutoff 1/2. -/
theorem claim2_witness :
    ([7, 3] : List ℕ).Nodup
    ∧ ([({0} : Finset ℕ), {1}]).length = ([7, 3] : List ℕ).length
    ∧ 1 ∈ (cluster_fingerprints ([({0} : Finset ℕ), {1}].map (fun fp2 => fp2)) (1/2)).getD 0 []
    ∧ (cluster_dataframe (fun fp2 : Fingerprint => fp2) [7, 3]
        [({0} : Finset ℕ), {1}] (1/2)).getD 1 (-1) = ((0 : ℕ) : ℤ)
    ∧ (cluster_dataframe (fun fp2 : Fingerprint => fp2) [7, 3]
        [({0} : Finset ℕ), {1}] (1/2)).getD 0 (-1) ≠ -1 := by
  refine ⟨by decide, by decide, by decide, ?_, ?_⟩
  · exact (claim2_cluster_dataframe_label_alignment (fun fp2 : Fingerprint => fp2)
      [7, 3] [({0} : Finset ℕ), {1}] (1/2) (by decide) (by decide)).1 0 (by decide)
      1 (by decide)
  · exact (claim2_cluster_dataframe_label_alignment (fun fp2 : Fingerprint => fp2)
      [7, 3] [({0} : Finset ℕ), {1}] (1/2) (by decide) (by decide)).2 0 (by decide)

/-- C3: `cluster_fingerprints` computes the same partition as the greedy
sphere-exclusion reference: processing the points in the fixed order
`butinaOrder` (decreasing neighbor count), each still-unassigned point
becomes a centroid absorbing every not-yet-assigned point within the
cutoff distance; and that order is a permutation of all input indices. -/
theorem claim3_butina_is_sphere_exclusion (fps : List Fingerprint) (cutoff : ℚ) :
    (cluster_fingerprints fps cutoff).map List.toFinset
      = sphereExclusion (butinaClose fps cutoff) fps.length (butinaOrder fps cutoff) ∅
    ∧ (butinaOrder fps cutoff).Perm (List.range fps.length) := by
  constructor
  · have hres := butinaLoop_sphereExclusion
      (clusterNbrLists (clusterDists fps) fps.length cutoff) fps.length
      (butinaClose fps cutoff)
      (fun k hk => clusterNbrLists_char fps cutoff hk)
      (clusterTList (clusterDists fps) fps.length cutoff) ∅ []
      (clusterTList_snd_lt _ _ _)
    rw [show cluster_fingerprints fps cutoff
        = butinaLoop (clusterNbrLists (clusterDists fps) fps.length cutoff)
            (clusterTList (clusterDists fps) fps.length cutoff) ∅ [] from rfl]
    rw [hres, List.map_nil, List.nil_append]
    rfl
  · exact clusterTList_map_snd_perm _ _ _

/-- C4 counterexample: on this six-fingerprint input at cutoff 1/2 the
returned clusters are `[[5,0,1],[4],[3,2]]`, whose sizes `3, 1, 2` are not
in decreasing order: the claim that clusters are ordered by decreasing
size is false. -/
theorem claim4_counterexample :
    cluster_fingerprints
        [({0,1,2} : Finset ℕ), {0,3,4}, {5,6,7}, {5,6,8}, {0,1,3}, {0,2,4}] (1/2)
      = [[5, 0, 1], [4], [3, 2]]
    ∧ ((cluster_fingerprints
        [({0,1,2} : Finset ℕ), {0,3,4}, {5,6,7}, {5,6,8}, {0,1,3}, {0,2,4}] (1/2)).getD
          1 []).length
      < ((cluster_fingerprints
        [({0,1,2} : Finset ℕ), {0,3,4}, {5,6,7}, {5,6,8}, {0,1,3}, {0,2,4}] (1/2)).getD
          2 []).length :=
  ⟨by decide, by decide⟩

/-- C4 (amended): every returned cluster lists its centroid first: the
cluster is nonempty and every other member lies within the cutoff distance
of the first listed index. (The clusters are not in general ordered by
decreasing size.) -/
theorem claim4_amended_centroid_first (fps : List Fingerprint) (cutoff : ℚ) :
    ∀ c ∈ cluster_fingerprints fps cutoff,
      ∃ hd tl2, c = hd :: tl2 ∧ hd < fps.length ∧
        ∀ m ∈ tl2, m ≠ hd ∧ m < fps.length ∧
          tanimotoDist (fps.getD hd ∅) (fps.getD m ∅) ≤ cutoff :=
  cluster_fingerprints_centroid_first fps cutoff

/-- Witness for the amended C4 at a concrete input. -/
theorem claim4_amended_witness :
    [1, 0] ∈ cluster_fingerprints [({0} : Finset ℕ), {0}, {1}] 0
    ∧ ∃ hd tl2, ([1, 0] : List ℕ) = hd :: tl2
        ∧ hd < ([({0} : Finset ℕ), {0}, {1}]).length
        ∧ ∀ m ∈ tl2, m ≠ hd ∧ m < ([({0} : Finset ℕ), {0}, {1}]).length
            ∧ tanimotoDist (([({0} : Finset ℕ), {0}, {1}]).getD hd ∅)
                (([({0} : Finset ℕ), {0}, {1}]).getD m ∅) ≤ 0 :=
  ⟨by decide, claim4_amended_centroid_first [{0}, {0}, {1}] 0 [1, 0] (by decide)⟩

/-- C5 counterexample: at cutoff 0 the input `[{0}, {0}, {1}]` is not
pairwise identical (its first and last fingerprints differ), yet the
output contains the non-singleton cluster `[1, 0]` formed by the two
duplicated fingerprints: the claim is false as stated. -/
theorem claim5_counterexample :
    cluster_fingerprints [({0} : Finset ℕ), {0}, {1}] 0 = [[1, 0], [2]]
    ∧ ([({0} : Finset ℕ), {0}, {1}]).getD 0 ∅ ≠ ([({0} : Finset ℕ), {0}, {1}]).getD 2 ∅
    ∧ [1, 0] ∈ cluster_fingerprints [({0} : Finset ℕ), {0}, {1}] 0
    ∧ ([1, 0] : List ℕ).length ≠ 1 :=
  ⟨by decide, by decide, by decide, by decide⟩

/-- C5 (amended): with cutoff 0, if the input fingerprints are pairwise
distinct then every returned cluster is a singleton; a non-singleton
cluster can only arise from duplicated fingerprints (not merely from a
failure of all fingerprints to coincide). -/
theorem claim5_amended_cutoff_zero (fps : List Fingerprint) (hnd : fps.Nodup) :
    ∀ c ∈ cluster_fingerprints fps 0, c.length = 1 :=
  cutoff_zero_singleton_clusters fps hnd

/-- Witness for the amended C5 at a concrete input. -/
theorem claim5_amended_witness :
    ([({0} : Finset ℕ), {1}] : List Fingerprint).Nodup
    ∧ [0] ∈ cluster_fingerprints [({0} : Finset ℕ), {1}] 0
    ∧ ([0] : List ℕ).length = 1 :=
  ⟨by decide, by decide,
    claim5_amended_cutoff_zero [{0}, {1}] (by decide) [0] (by decide)⟩

/-- C6 counterexample: two divergences from the claim. On a zero-row frame
(all of whose rows vacuously hold valid molecules) the row loop never runs,
so no descriptor column is appended at all. And on a one-row frame that
already has a column named like a descriptor, the cell assignment updates
that column in place: no new column is appended and the pre-existing
column's contents change. -/
theorem claim6_counterexample :
    (∀ i, i < (⟨0, [("mol", [])]⟩ : DF Unit).nrows →
      (getCell (⟨0, [("mol", [])]⟩ : DF Unit) "mol" i).isMol = true)
    ∧ colNames (calculate_descriptors ["MolWt"] (fun _ : Unit => [1])
        (⟨0, [("mol", [])]⟩ : DF Unit) "mol") = ["mol"]
    ∧ (["mol"] : List String) ≠ ["mol"] ++ ["MolWt"]
    ∧ (∀ i, i < (⟨1, [("mol", [DVal.mol ()]), ("MolWt", [DVal.num 5])]⟩ : DF Unit).nrows →
      (getCell (⟨1, [("mol", [DVal.mol ()]), ("MolWt", [DVal.num 5])]⟩ : DF Unit)
        "mol" i).isMol = true)
    ∧ colNames (calculate_descriptors ["MolWt"] (fun _ : Unit => [1])
        (⟨1, [("mol", [DVal.mol ()]), ("MolWt", [DVal.num 5])]⟩ : DF Unit) "mol")
      = ["mol", "MolWt"]
    ∧ getCol (calculate_descriptors ["MolWt"] (fun _ : Unit => [1])
        (⟨1, [("mol", [DVal.mol ()]), ("MolWt", [DVal.num 5])]⟩ : DF Unit) "mol") "MolWt"
      ≠ getCol (⟨1, [("mol", [DVal.mol ()]), ("MolWt", [DVal.num 5])]⟩ : DF Unit) "MolWt" := by
  refine ⟨fun i hi => absurd hi (Nat.not_lt_zero i), by decide, by decide, ?_, by decide,
    by decide⟩
  intro i hi
  have hi2 : i < 1 := hi
  have h0 : i = 0 := by omega
  subst h0
  decide

/-- C6 (amended): on a frame with at least one row, all molecule cells
valid, pairwise-distinct descriptor names none of which collides with an
existing column, `calculate_descriptors` appends exactly one new column per
descriptor (in order, after the existing columns) and leaves the name and
contents of every pre-existing column unchanged. -/
theorem claim6_amended_descriptor_columns {Mol : Type} (descList : List String)
    (calcD : Mol → List ℚ) (df : DF Mol) (molecule_column : String)
    (hnd : descList.Nodup)
    (hdisj : ∀ nm ∈ descList, nm ∉ colNames df)
    (hcalc : ∀ m, (calcD m).length = descList.length)
    (hmol : ∀ i, i < df.nrows → (getCell df molecule_column i).isMol = true)
    (hpos : 1 ≤ df.nrows) :
    colNames (calculate_descriptors descList calcD df molecule_column)
        = colNames df ++ descList
      ∧ ∀ nm ∈ colNames df,
        getCol (calculate_descriptors descList calcD df molecule_column) nm
          = getCol df nm :=
  calculate_descriptors_spec descList calcD df molecule_column hnd hdisj hcalc hmol hpos

/-- Witness for the amended C6 at a concrete input. -/
theorem claim6_amended_witness :
    (["MolWt"] : List String).Nodup
    ∧ "MolWt" ∉ colNames (⟨1, [("mol", [DVal.mol ()])]⟩ : DF Unit)
    ∧ (getCell (⟨1, [("mol", [DVal.mol ()])]⟩ : DF Unit) "mol" 0).isMol = true
    ∧ colNames (calculate_descriptors ["MolWt"] (fun _ : Unit => [1])
        (⟨1, [("mol", [DVal.mol ()])]⟩ : DF Unit) "mol")
      = colNames (⟨1, [("mol", [DVal.mol ()])]⟩ : DF Unit) ++ ["MolWt"]
    ∧ getCol (calculate_descriptors ["MolWt"] (fun _ : Unit => [1])
        (⟨1, [("mol", [DVal.mol ()])]⟩ : DF Unit) "mol") "mol"
      = getCol (⟨1, [("mol", [DVal.mol ()])]⟩ : DF Unit) "mol" := by
  have happ := claim6_amended_descriptor_columns ["MolWt"] (fun _ : Unit => [1])
    (⟨1, [("mol", [DVal.mol ()])]⟩ : DF Unit) "mol" (by decide) (by decide)
    (fun _ => rfl)
    (by
      intro i hi
      have hi2 : i < 1 := hi
      have h0 : i = 0 := by omega
      subst h0
      decide)
    (by decide)
  exact ⟨by decide, by decide, by decide, happ.1, happ.2 "mol" (by decide)⟩

/-- C7: `mol_to_html` with a type whose lowercase form is neither `png` nor
`svg` logs exactly the warning, returns no image tag, and does not raise,
whatever the toolkit does; and the type argument is recognized
case-insensitively: the result depends on `type` only through its lowercase
form. -/
theorem claim7_mol_to_html_type_gate {Mol : Type} (kit : HtmlKit Mol) (mol : Mol)
    (name type directory : String) (embed : Bool) (width height : ℕ) :
    (¬(pyLower type = "png" ∨ pyLower type = "svg") →
      mol_to_html kit mol name type directory embed width height
        = Except.ok ⟨none, [unrecognizedTypeWarning], [], []⟩)
    ∧ ∀ type2 : String, pyLower type = pyLower type2 →
      mol_to_html kit mol name type directory embed width height
        = mol_to_html kit mol name type2 directory embed width height := by
  constructor
  · intro h
    unfold mol_to_html
    rw [if_pos h]
  · intro type2 he
    unfold mol_to_html
    rw [he]

/-- Witness for C7 at concrete inputs (`bmp` rejected, `PNG` equivalent to
`png`). -/
theorem claim7_witness :
    ¬(pyLower "bmp" = "png" ∨ pyLower "bmp" = "svg")
    ∧ mol_to_html htmlProbeKit () "m" "bmp" "d" false 400 200
        = Except.ok ⟨none, [unrecognizedTypeWarning], [], []⟩
    ∧ pyLower "PNG" = pyLower "png"
    ∧ mol_to_html htmlProbeKit () "m" "PNG" "d" true 400 200
        = mol_to_html htmlProbeKit () "m" "png" "d" true 400 200 := by
  refine ⟨by decide, ?_, by decide, ?_⟩
  · exact (claim7_mol_to_html_type_gate htmlProbeKit () "m" "bmp" "d" false 400 200).1
      (by decide)
  · exact (claim7_mol_to_html_type_gate htmlProbeKit () "m" "PNG" "d" true 400 200).2
      "png" (by decide)

/-- C8: `mol_to_svg` handles exactly two toolkit failure modes. A
`RuntimeError` from reading the first atom's explicit valence triggers a
property-cache refresh before rendering, a `ValueError` from preparing with
`kekulize=True` triggers a fallback to `kekulize=False`, and every other
failure — a non-`RuntimeError` from the valence probe, a non-`ValueError`
from preparation, an error from the fallback preparation, or an error from
the drawer — propagates to the caller unchanged. -/
theorem claim8_mol_to_svg_exception_policy {Mol : Type} (kit : SvgKit Mol) (mol : Mol)
    (w h : ℕ) :
    (∀ v, kit.getExplicitValence0 mol = Except.ok v →
      mol_to_svg kit mol w h = svgRender kit mol w h)
    ∧ (kit.getExplicitValence0 mol = Except.error PyExc.runtimeError →
      mol_to_svg kit mol w h = svgRender kit (kit.updatePropertyCache mol) w h)
    ∧ (∀ e, e ≠ PyExc.runtimeError → kit.getExplicitValence0 mol = Except.error e →
      mol_to_svg kit mol w h = Except.error e)
    ∧ (∀ mc, kit.prepareMolForDrawing mol true = Except.ok mc →
      svgRender kit mol w h = drawFinish kit mc w h)
    ∧ (kit.prepareMolForDrawing mol true = Except.error PyExc.valueError →
      ∀ mc, kit.prepareMolForDrawing mol false = Except.ok mc →
      svgRender kit mol w h = drawFinish kit mc w h)
    ∧ (kit.prepareMolForDrawing mol true = Except.error PyExc.valueError →
      ∀ e, kit.prepareMolForDrawing mol false = Except.error e →
      svgRender kit mol w h = Except.error e)
    ∧ (∀ e, e ≠ PyExc.valueError → kit.prepareMolForDrawing mol true = Except.error e →
      svgRender kit mol w h = Except.error e)
    ∧ (∀ mc e, kit.prepareMolForDrawing mol true = Except.ok mc →
      kit.drawMoleculeSVG mc w h = Except.error e →
      svgRender kit mol w h = Except.error e) := by
  refine ⟨?_, ?_, ?_, ?_, ?_, ?_, ?_, ?_⟩
  · intro v hv
    unfold mol_to_svg
    rw [hv]
  · intro hv
    unfold mol_to_svg
    rw [hv]
  · intro e he hv
    unfold mol_to_svg
    rw [hv]
    cases e with
    | runtimeError => exact absurd rfl he
    | valueError => rfl
    | other => rfl
  · intro mc hmc
    unfold svgRender
    rw [hmc]
  · intro h1 mc h2
    unfold svgRender
    rw [h1, h2]
  · intro h1 e h2
    unfold svgRender
    rw [h1, h2]
  · intro e he h1
    unfold svgRender
    rw [h1]
    cases e with
    | valueError => exact absurd rfl he
    | runtimeError => rfl
    | other => rfl
  · intro mc e h1 h2
    have hstep : svgRender kit mol w h = drawFinish kit mc w h := by
      unfold svgRender
      rw [h1]
    rw [hstep]
    unfold drawFinish
    rw [h2]

/-- Witness for C8: each branch of the exception policy exercised on a
concrete toolkit whose operations fail in controlled ways. -/
theorem claim8_witness :
    mol_to_svg svgProbeKit 9 1 1 = svgRender svgProbeKit 9 1 1
    ∧ mol_to_svg svgProbeKit 0 1 1 = svgRender svgProbeKit 100 1 1
    ∧ mol_to_svg svgProbeKit 1 1 1 = Except.error PyExc.other
    ∧ svgRender svgProbeKit 9 1 1 = drawFinish svgProbeKit 9 1 1
    ∧ svgRender svgProbeKit 2 1 1 = drawFinish svgProbeKit 22 1 1
    ∧ svgRender svgProbeKit 3 1 1 = Except.error PyExc.other
    ∧ svgRender svgProbeKit 4 1 1 = Except.error PyExc.other
    ∧ svgRender svgProbeKit 6 1 1 = Except.error PyExc.other := by
  refine ⟨?_, ?_, ?_, ?_, ?_, ?_, ?_, ?_⟩
  · exact (claim8_mol_to_svg_exception_policy svgProbeKit 9 1 1).1 7 rfl
  · exact (claim8_mol_to_svg_exception_policy svgProbeKit 0 1 1).2.1 rfl
  · exact (claim8_mol_to_svg_exception_policy svgProbeKit 1 1 1).2.2.1 PyExc.other
      (by decide) rfl
  · exact (claim8_mol_to_svg_exception_policy svgProbeKit 9 1 1).2.2.2.1 9 rfl
  · exact (claim8_mol_to_svg_exception_policy svgProbeKit 2 1 1).2.2.2.2.1 rfl 22 rfl
  · exact (claim8_mol_to_svg_exception_policy svgProbeKit 3 1 1).2.2.2.2.2.1 rfl
      PyExc.other rfl
  · exact (claim8_mol_to_svg_exception_policy svgProbeKit 4 1 1).2.2.2.2.2.2.1
      PyExc.other (by decide) rfl
  · exact (claim8_mol_to_svg_exception_policy svgProbeKit 6 1 1).2.2.2.2.2.2.2 66
      PyExc.other rfl rfl

/-- C9: `calculate_descriptors` has no return statement, so its call
returns `None` even though it mutates the frame in place; `add_mol_column`
instead returns the very frame it mutated, so rebinding to the former's
result loses the frame while rebinding to the latter's does not. -/
theorem claim9_return_values {Mol : Type} (descList : List String) (calcD : Mol → List ℚ)
    (df : DF Mol) (molecule_column : String)
    (addMoleculeColumnToFrame : DF Mol → String → String → DF Mol) (df2 : DF Mol)
    (smiles_col molecule_col : String) :
    (calculate_descriptors_call descList calcD df molecule_column).2 = none
    ∧ (add_mol_column addMoleculeColumnToFrame df2 smiles_col molecule_col).2
        = some (add_mol_column addMoleculeColumnToFrame df2 smiles_col molecule_col).1 :=
  ⟨rfl, rfl⟩

/-- C10: with `embed=True` and a recognized type, `mol_to_html` creates no
directory and writes no file, and its result is independent of the `name`
and `directory` arguments: it depends only on the molecule, type, width and
height. -/
theorem claim10_embed_pure {Mol : Type} (kit : HtmlKit Mol) (mol : Mol)
    (name1 name2 type dir1 dir2 : String) (width height : ℕ)
    (h : pyLower type = "png" ∨ pyLower type = "svg") :
    mol_to_html kit mol name1 type dir1 true width height
      = mol_to_html kit mol name2 type dir2 true width height
    ∧ ∀ out, mol_to_html kit mol name1 type dir1 true width height = Except.ok out →
      out.dirsCreated = [] ∧ out.filesWritten = [] := by
  constructor
  · rcases h with hp | hp <;> simp [mol_to_html, hp]
  · intro out hout
    by_cases hp : pyLower type = "png"
    · simp only [mol_to_html, hp] at hout
      simp at hout
      cases hio : kit.imgToBytes mol (width, height) with
      | ok bytes =>
        rw [hio] at hout
        simp at hout
        rw [← hout]
        exact ⟨rfl, rfl⟩
      | error e =>
        rw [hio] at hout
        simp at hout
    · have hs : pyLower type = "svg" := by
        rcases h with h2 | h2
        · exact absurd h2 hp
        · exact h2
      simp only [mol_to_html, hs] at hout
      simp at hout
      cases hio : mol_to_svg kit.toSvgKit mol width height with
      | ok svg =>
        rw [hio] at hout
        simp at hout
        rw [← hout]
        exact ⟨rfl, rfl⟩
      | error e =>
        rw [hio] at hout
        simp at hout

/-- Witness for C10 at a concrete input: varying the name and directory with
`embed=True` leaves the result unchanged, and the result carries no
filesystem effect. -/
theorem claim10_witness :
    (pyLower "svg" = "png" ∨ pyLower "svg" = "svg")
    ∧ mol_to_html htmlProbeKit () "a" "svg" "d1" true 400 200
        = mol_to_html htmlProbeKit () "b" "svg" "d2" true 400 200
    ∧ (⟨some (imgTag "data:image/svg+xml;base64,QQ" 400), [embedInfoMessage], [], []⟩
        : HtmlOut).dirsCreated = []
    ∧ (⟨some (imgTag "data:image/svg+xml;base64,QQ" 400), [embedInfoMessage], [], []⟩
        : HtmlOut).filesWritten = [] := by
  have happ := claim10_embed_pure htmlProbeKit () "a" "b" "svg" "d1" "d2" 400 200
    (by decide)
  exact ⟨by decide, happ.1,
    (happ.2 _ rfl).1,
    (happ.2 _ rfl).2⟩
